import Mathlib

/-!
# Blog aggregator: the aggregation cycle

A shallow embedding of the aggregation core of `Shubham-Hazra/blog-aggregator`
(`internal/handler/handlers.go`, `pkg/rss/rss.go`, and the dispatch of
`cmd/main.go`) and theorems about it.

Conventions of the embedding.

* A Go `error` is identified with the text its `Error()` method returns; `nil`
  is `none`.
* The relational store behind `s.DBQueries` and the network behind
  `http.Client` are explicit states (`σ` and `ν`).  The generated query
  methods and the Go standard library functions the code calls are fields of an
  environment record; the functions of the repository are defined over it.
* Every call that leaves the process (a query, a call of the HTTP client, a log line)
  is recorded, in program order, as an `Event` of the trace a function returns.
-/

namespace BlogAggregator

/-! ## Data model -/

/-- Go `error`, identified by its `Error()` text. -/
abbrev Err := String

/-- An instant (`time.Time`). -/
abbrev Timestamp := Int

/-- A `time.Duration`: a signed count of nanoseconds. -/
abbrev Duration := Int

/-- The `sql.NullTime` struct of `database/sql`. -/
structure NullTime where
  Time : Int
  Valid : Bool
deriving DecidableEq, Repr

/-- The `sql.NullString` struct of `database/sql`. -/
structure NullString where
  String : String
  Valid : Bool
deriving DecidableEq, Repr

namespace database

/-- The `database.Feed` row, `internal/database/models.go`. -/
structure Feed where
  ID : Int
  Name : String
  Url : String
  UserID : String
  CreatedAt : NullTime
  UpdatedAt : NullTime
  LastFetchedAt : NullTime
deriving DecidableEq, Repr

/-- The `database.Post` row, `internal/database/models.go`. -/
structure Post where
  ID : Int
  CreatedAt : Timestamp
  UpdatedAt : Timestamp
  Title : String
  Url : String
  Description : NullString
  PublishedAt : NullTime
  FeedID : Int
deriving DecidableEq, Repr

/-- The parameter struct of `CreatePost`, with the fields `savePostToDB` fills
(`handlers.go`, lines 104-110). -/
structure CreatePostParams where
  Title : String
  Url : String
  Description : NullString
  PublishedAt : NullTime
  FeedID : Int
deriving DecidableEq, Repr

end database

namespace rss

/-- The `rss.Item` struct, `pkg/rss/rss.go`. -/
structure Item where
  Title : String
  Link : String
  Description : String
  PubDate : String
deriving DecidableEq, Repr

/-- The anonymous `Channel` struct of `rss.Feed`. -/
structure Channel where
  Title : String
  Link : String
  Description : String
  Items : List Item
deriving DecidableEq, Repr

/-- The `rss.Feed` struct, `pkg/rss/rss.go`. -/
structure Feed where
  Channel : Channel
deriving DecidableEq, Repr

end rss

/-- A `context.Context`, reduced to its deadline (none: no deadline). -/
structure Context where
  deadline : Option Timestamp
deriving DecidableEq, Repr

/-- The context `context.Background()`: never cancelled, no deadline. -/
def Context.Background : Context := ⟨none⟩

/-- An `http.Request` as `http.NewRequestWithContext` builds it. -/
structure Request where
  ctx : Context
  method : String
  url : String
deriving DecidableEq, Repr

/-- An `http.Response`, reduced to a handle on its body stream. -/
structure Response where
  Body : String
deriving DecidableEq, Repr

/-- The `types.Command` struct: a command name and its arguments. -/
structure Command where
  Name : String
  Args : List String
deriving DecidableEq, Repr

/-- The calls that leave the process, as recorded in a trace. -/
inductive Event where
  | GetNextFeedToFetch
  | MarkFeedFetched (id : Int)
  | FetchFeed (ctx : Context) (url : String)
  | clientDo (req : Request)
  | CreatePost (arg : database.CreatePostParams)
  | logPrintf (msg : String)
  | Println (msg : String)
  | tickerWait
deriving DecidableEq, Repr

/-- The three query methods of `database.Queries` the cycle calls, over a
store state `σ`.  Each returns its Go result and the store state after it. -/
structure Store (σ : Type) where
  GetNextFeedToFetch : σ → Except Err database.Feed × σ
  MarkFeedFetched : σ → Int → Option Err × σ
  CreatePost : σ → database.CreatePostParams → Option Err × σ

/-- The Go standard library functions the code calls, over a network state
`ν`: `time.Parse(time.RFC1123, ·)`, `html.UnescapeString`,
`http.NewRequestWithContext`, `(*http.Client).Do`, `io.ReadAll`,
`xml.Unmarshal` into an `rss.Feed`, `time.ParseDuration` and
`Duration.String`. -/
structure Lib (ν : Type) where
  timeParseRFC1123 : String → Except Err Timestamp
  UnescapeString : String → String
  NewRequestWithContext : Context → String → String → Except Err Request
  clientDo : ν → Request → Except Err Response × ν
  ReadAll : ν → Response → Except Err String × ν
  xmlUnmarshal : String → Except Err rss.Feed
  ParseDuration : String → Except Err Duration
  durationString : Duration → String

/-- The collaborators of the aggregation core. -/
structure Env (σ ν : Type) extends Store σ, Lib ν

/-- The state outside the process: the store and the network. -/
structure World (σ ν : Type) where
  db : σ
  net : ν

/-! ## `pkg/rss/rss.go` -/

/-- The function `unescapeStrings` of `rss.go` (lines 54-62): the pointer
argument is updated in place, here the updated feed is returned. -/
def unescapeStrings {σ ν : Type} (E : Env σ ν) (feed : rss.Feed) : rss.Feed :=
  { feed with
    Channel :=
      { feed.Channel with
        Title := E.UnescapeString feed.Channel.Title
        Description := E.UnescapeString feed.Channel.Description
        Items := feed.Channel.Items.map fun it =>
          { it with
            Title := E.UnescapeString it.Title
            Description := E.UnescapeString it.Description } } }

/-- The function `FetchFeed` of `rss.go` (lines 27-52).  Returns the parsed
feed or the error, the network state and the calls of `client.Do` made. -/
def FetchFeed {σ ν : Type} (E : Env σ ν) (ctx : Context) (feedURL : String) (net : ν) :
    Except Err rss.Feed × ν × List Event :=
  match E.NewRequestWithContext ctx "GET" feedURL with
  | .error err => (.error err, net, [])
  | .ok req =>
    match E.clientDo net req with
    | (.error err, net1) => (.error err, net1, [Event.clientDo req])
    | (.ok res, net1) =>
      match E.ReadAll net1 res with
      | (.error err, net2) => (.error err, net2, [Event.clientDo req])
      | (.ok data, net2) =>
        match E.xmlUnmarshal data with
        | .error err => (.error err, net2, [Event.clientDo req])
        | .ok rssFeed => (.ok (unescapeStrings E rssFeed), net2, [Event.clientDo req])

/-! ## `internal/handler/handlers.go` -/

/-- The text `isDuplicateURLError` compares with. -/
def duplicateURLText : String :=
  "pq: duplicate key value violates unique constraint \"posts_url_key\""

/-- The function `isDuplicateURLError` of `handlers.go` (lines 114-116). -/
def isDuplicateURLError (err : Option Err) : Bool :=
  match err with
  | none => false
  | some e => e == duplicateURLText

/-- The function `savePostToDB` of `handlers.go` (lines 99-112).  Returns the
error, the store state and the store calls made. -/
def savePostToDB {σ ν : Type} (E : Env σ ν) (db : σ) (item : rss.Item) (feed : database.Feed) :
    Option Err × σ × List Event :=
  match E.timeParseRFC1123 item.PubDate with
  | .error err => (some err, db, [])
  | .ok publishedAt =>
    let arg : database.CreatePostParams :=
      { Title := item.Title
        Url := item.Link
        Description := { String := item.Description, Valid := true }
        PublishedAt := { Time := publishedAt, Valid := true }
        FeedID := feed.ID }
    let r := E.CreatePost db arg
    (r.1, r.2, [Event.CreatePost arg])

/-- The line `log.Printf` writes in the ingest loop (`handlers.go`, line 92). -/
def saveErrorLine (link : String) (err : Err) : String :=
  "Error saving post with URL " ++ link ++ ": " ++ err ++ "\n"

/-- What the ingest loop of `scrapeFeeds` leaves behind: the store state, the
trace, and the value `err` took at each item (the result of `savePostToDB`). -/
structure IngestResult (σ : Type) where
  db : σ
  trace : List Event
  errs : List (Option Err)

/-- The `for _, item := range feed.Channel.Items` loop of `scrapeFeeds`
(`handlers.go`, lines 86-94). -/
def ingestLoop {σ ν : Type} (E : Env σ ν) (nextFeed : database.Feed) :
    List rss.Item → σ → IngestResult σ
  | [], db => ⟨db, [], []⟩
  | item :: rest, db =>
    let r := savePostToDB E db item nextFeed
    let logged : List Event :=
      match r.1 with
      | none => []
      | some err =>
        if isDuplicateURLError (some err) then []
        else [Event.logPrintf (saveErrorLine item.Link err)]
    let k := ingestLoop E nextFeed rest r.2.1
    ⟨k.db, r.2.2 ++ logged ++ k.trace, r.1 :: k.errs⟩

/-- What one cycle returns: the `error` result, the world after the cycle and
the trace of the cycle. -/
structure CycleResult (σ ν : Type) where
  err : Option Err
  world : World σ ν
  trace : List Event

/-- The function `scrapeFeeds` of `handlers.go` (lines 70-97). -/
def scrapeFeeds {σ ν : Type} (E : Env σ ν) (w : World σ ν) : CycleResult σ ν :=
  match E.GetNextFeedToFetch w.db with
  | (.error err, db1) => ⟨some err, ⟨db1, w.net⟩, [Event.GetNextFeedToFetch]⟩
  | (.ok nextFeed, db1) =>
    match E.MarkFeedFetched db1 nextFeed.ID with
    | (some err, db2) =>
      ⟨some err, ⟨db2, w.net⟩, [Event.GetNextFeedToFetch, Event.MarkFeedFetched nextFeed.ID]⟩
    | (none, db2) =>
      let called : List Event :=
        [Event.GetNextFeedToFetch, Event.MarkFeedFetched nextFeed.ID,
          Event.FetchFeed Context.Background nextFeed.Url]
      match FetchFeed E Context.Background nextFeed.Url w.net with
      | (.error err, net1, tr) => ⟨some err, ⟨db2, net1⟩, called ++ tr⟩
      | (.ok feed, net1, tr) =>
        let k := ingestLoop E nextFeed feed.Channel.Items db2
        ⟨none, ⟨k.db, net1⟩, called ++ tr ++ k.trace⟩

/-- How a run of `HandleAgg` stands after a bounded number of cycles: it
panicked, it returned its error, or it is still in its loop (about to run the
next cycle). Each case carries the world and the trace so far. -/
inductive AggResult (σ ν : Type) where
  | panicked (msg : String) (world : World σ ν) (trace : List Event)
  | returned (err : Err) (world : World σ ν) (trace : List Event)
  | running (world : World σ ν) (trace : List Event)

/-- The trace of a run so far. -/
def AggResult.trace {σ ν : Type} : AggResult σ ν → List Event
  | .panicked _ _ tr => tr
  | .returned _ _ tr => tr
  | .running _ tr => tr

/-- The loop `for ; ; <-ticker.C { ... }` of `HandleAgg` (`handlers.go`,
lines 62-67), run for at most `fuel` cycles: the body runs first, the receive
from `ticker.C` is the post statement, and there is no loop condition. -/
def aggLoop {σ ν : Type} (E : Env σ ν) : Nat → World σ ν → List Event → AggResult σ ν
  | 0, w, tr => .running w tr
  | fuel + 1, w, tr =>
    let r := scrapeFeeds E w
    match r.err with
    | some err => .returned err r.world (tr ++ r.trace)
    | none => aggLoop E fuel r.world (tr ++ r.trace ++ [Event.tickerWait])

/-- The function `HandleAgg` of `handlers.go` (lines 52-68), its loop run for
at most `fuel` cycles.  `cmd.Args[0]` panics on an empty argument list, and
`time.NewTicker` panics on a non-positive duration. -/
def HandleAgg {σ ν : Type} (E : Env σ ν) (fuel : Nat) (w : World σ ν) (cmd : Command) :
    AggResult σ ν :=
  match cmd.Args with
  | [] => .panicked "runtime error: index out of range [0] with length 0" w []
  | time_between_reqs :: _ =>
    match E.ParseDuration time_between_reqs with
    | .error err => .returned err w []
    | .ok timeBetweenRequests =>
      let printed : List Event :=
        [Event.Println ("Collecting feeds every " ++ E.durationString timeBetweenRequests)]
      if timeBetweenRequests ≤ 0 then
        .panicked "non-positive interval for NewTicker" w printed
      else aggLoop E fuel w printed

/-! ## Runs of the loop, cycle by cycle -/

/-- The number of cycles started in a trace: every cycle starts with its one
call of `GetNextFeedToFetch`. -/
def cyclesRun (tr : List Event) : Nat :=
  tr.count Event.GetNextFeedToFetch

/-- The insert attempts of a trace, in order. -/
def insertAttempts : List Event → List database.CreatePostParams
  | [] => []
  | Event.CreatePost arg :: tr => arg :: insertAttempts tr
  | _ :: tr => insertAttempts tr

/-- The post `savePostToDB` builds for an item of a feed when the item's
publish date parsed to `publishedAt`. -/
def postOf (item : rss.Item) (publishedAt : Timestamp) (feed : database.Feed) :
    database.CreatePostParams :=
  { Title := item.Title
    Url := item.Link
    Description := { String := item.Description, Valid := true }
    PublishedAt := { Time := publishedAt, Valid := true }
    FeedID := feed.ID }

/-- The insert attempts the spec expects for a batch: one per item whose
publish date parses, in document order. -/
def expectedInserts {σ ν : Type} (E : Env σ ν) (feed : database.Feed) :
    List rss.Item → List database.CreatePostParams
  | [] => []
  | item :: rest =>
    match E.timeParseRFC1123 item.PubDate with
    | .error _ => expectedInserts E feed rest
    | .ok t => postOf item t feed :: expectedInserts E feed rest

/-! ## Concrete collaborators

Small, fully computable collaborators on which the definitions above can be
evaluated. -/

/-- A store that answers every query with a fixed result and has no state. -/
def scriptedStore (sel : Except Err database.Feed) (stamp ins : Option Err) : Store Unit where
  GetNextFeedToFetch := fun db => (sel, db)
  MarkFeedFetched := fun db _ => (stamp, db)
  CreatePost := fun db _ => (ins, db)

/-- The one publish-date text `demoLib` parses. -/
def demoDate : String := "Mon, 02 Jan 2006 15:04:05 MST"

/-- A stand-in for the standard library with a stateless network: the date
parser accepts `demoDate` only, the duration parser accepts `1m30s` only,
requests to `http://down.example` fail, and the document a URL serves is given
by `served`. -/
def demoLib (served : String → Except Err rss.Feed) : Lib Unit where
  timeParseRFC1123 := fun s =>
    if s = demoDate then .ok 1136239445 else .error "parsing time: cannot parse"
  UnescapeString := fun s => if s = "R&amp;D" then "R&D" else s
  NewRequestWithContext := fun ctx method url => .ok ⟨ctx, method, url⟩
  clientDo := fun net req =>
    if req.url = "http://down.example" then (.error "dial tcp: connection refused", net)
    else (.ok ⟨req.url⟩, net)
  ReadAll := fun net res => (.ok res.Body, net)
  xmlUnmarshal := served
  ParseDuration := fun s =>
    if s = "1m30s" then .ok 90000000000 else .error "time: invalid duration"
  durationString := fun d => if d = 90000000000 then "1m30s" else "?"

/-- A feed row with the given identity, URL and last-fetched stamp. -/
def demoFeed (id : Int) (url : String) (last : NullTime) : database.Feed :=
  { ID := id, Name := "feed", Url := url, UserID := "u", CreatedAt := ⟨0, true⟩,
    UpdatedAt := ⟨0, true⟩, LastFetchedAt := last }

/-- An item with the given link and publish-date text. -/
def demoItem (link date : String) : rss.Item :=
  { Title := "post", Link := link, Description := "body", PubDate := date }

/-- A parsed document with the given items. -/
def demoDoc (items : List rss.Item) : rss.Feed :=
  { Channel := { Title := "blog", Link := "http://blog.example", Description := "d",
                 Items := items } }

/-- The environment of a scripted store and `demoLib`. -/
def scriptedEnv (sel : Except Err database.Feed) (stamp ins : Option Err)
    (served : String → Except Err rss.Feed) : Env Unit Unit :=
  { toStore := scriptedStore sel stamp ins, toLib := demoLib served }

/-! ## The store, modelled from the spec

The query methods `GetNextFeedToFetch`, `MarkFeedFetched` and `CreatePost` are
generated code that is not among the sources; the model below follows the
contract the spec gives for them (sections 3, 4.1 and 6). -/

/-- The state of the model store: the feed rows, the post rows and the store
clock. -/
structure MemDB where
  feeds : List database.Feed
  posts : List database.Post
  now : Int
deriving DecidableEq, Repr

/-- Modelled from the spec: the staleness order of section 4.1 that the missing
query `GetNextFeedToFetch` sorts by.  `a` comes strictly before `b` when `a`
was never fetched and `b` was, or both were fetched and `a` earlier; ties are
broken by identity. -/
def staleBefore (a b : database.Feed) : Bool :=
  match a.LastFetchedAt.Valid, b.LastFetchedAt.Valid with
  | false, true => true
  | true, false => false
  | false, false => decide (a.ID < b.ID)
  | true, true =>
    decide (a.LastFetchedAt.Time < b.LastFetchedAt.Time) ||
      (decide (a.LastFetchedAt.Time = b.LastFetchedAt.Time) && decide (a.ID < b.ID))

/-- Modelled from the spec: the first feed in the staleness order, the row the
missing query `GetNextFeedToFetch` returns (section 4.1). -/
def stalest : List database.Feed → Option database.Feed
  | [] => none
  | f :: fs =>
    match stalest fs with
    | none => some f
    | some g => if staleBefore g f then some g else some f

/-- Modelled from the spec: the missing query `GetNextFeedToFetch`
(`selectStalestFeed` of section 6); it fails with `sql.ErrNoRows` when there is
no feed and does not change the store. -/
def MemDB.GetNextFeedToFetch (db : MemDB) : Except Err database.Feed × MemDB :=
  match stalest db.feeds with
  | none => (.error "sql: no rows in result set", db)
  | some f => (.ok f, db)

/-- Modelled from the spec: the missing query `MarkFeedFetched` (`stampFetched`
of section 6), which sets `lastFetchedAt` of the feed with the given identity
to the current time. -/
def MemDB.MarkFeedFetched (db : MemDB) (id : Int) : Option Err × MemDB :=
  (none,
    { db with
      feeds := db.feeds.map fun f =>
        if f.ID = id then { f with LastFetchedAt := ⟨db.now, true⟩ } else f })

/-- The URLs of the stored posts. -/
def MemDB.urls (db : MemDB) : List String :=
  db.posts.map fun p => p.Url

/-- Modelled from the spec: the missing query `CreatePost` (`insertPost` of
section 6) against a store that enforces the uniqueness of post URLs
(section 3): an existing URL is refused with the uniqueness violation the
driver reports, and a new one creates one row. -/
def MemDB.CreatePost (db : MemDB) (arg : database.CreatePostParams) : Option Err × MemDB :=
  if arg.Url ∈ db.urls then (some duplicateURLText, db)
  else
    (none,
      { db with
        posts := db.posts ++
          [{ ID := db.posts.length + 1, CreatedAt := db.now, UpdatedAt := db.now,
             Title := arg.Title, Url := arg.Url, Description := arg.Description,
             PublishedAt := arg.PublishedAt, FeedID := arg.FeedID }] })

/-- Modelled from the spec: the store of sections 3, 4.1 and 6, standing for
the missing generated query code. -/
def memStore : Store MemDB where
  GetNextFeedToFetch := MemDB.GetNextFeedToFetch
  MarkFeedFetched := MemDB.MarkFeedFetched
  CreatePost := MemDB.CreatePost

/-- The environment of the model store and a standard library. -/
def memEnv {ν : Type} (L : Lib ν) : Env MemDB ν :=
  { toStore := memStore, toLib := L }

/-- The stamp `a` is not after the stamp `b`, a null stamp (never fetched)
being before every timestamp. -/
def NullTime.notAfter (a b : NullTime) : Prop :=
  a.Valid = false ∨ (b.Valid = true ∧ a.Time ≤ b.Time)

/-- Two stamps are equal as nullable timestamps. -/
def NullTime.same (a b : NullTime) : Prop :=
  (a.Valid = false ∧ b.Valid = false) ∨ (a.Valid = true ∧ b.Valid = true ∧ a.Time = b.Time)

/-! ## Per-item outcomes -/

/-- The counts of a report as the spec describes it. -/
structure Report where
  inserted : Nat
  duplicate : Nat
  failed : Nat
deriving DecidableEq, Repr

/-- The counts of the three branches the ingest loop takes on the results of
`savePostToDB` (`handlers.go`, lines 88-93): `nil`, a duplicate-URL error, any
other error. -/
def reportOf : List (Option Err) → Report
  | [] => ⟨0, 0, 0⟩
  | none :: rest =>
    let r := reportOf rest
    ⟨r.inserted + 1, r.duplicate, r.failed⟩
  | some err :: rest =>
    let r := reportOf rest
    if isDuplicateURLError (some err) then ⟨r.inserted, r.duplicate + 1, r.failed⟩
    else ⟨r.inserted, r.duplicate, r.failed + 1⟩

/-- The warnings of a trace, in order. -/
def logLines : List Event → List String
  | [] => []
  | Event.logPrintf msg :: tr => msg :: logLines tr
  | _ :: tr => logLines tr

/-- A stored post with the given URL. -/
def demoPost (id : Int) (url : String) : database.Post :=
  { ID := id, CreatedAt := 0, UpdatedAt := 0, Title := "post", Url := url,
    Description := ⟨"body", true⟩, PublishedAt := ⟨1136239445, true⟩, FeedID := 7 }

/-- The environment of the model store and `demoLib` in which every URL serves
a document of two items with parseable dates. -/
def twoItemEnv : Env MemDB Unit :=
  memEnv (demoLib (fun _ =>
    .ok (demoDoc [demoItem "http://p/1" demoDate, demoItem "http://p/2" demoDate])))

/-- A world with one feed in which the URL of the second item is stored. -/
def worldOneKnown : World MemDB Unit :=
  ⟨⟨[demoFeed 7 "http://a.example" ⟨0, false⟩], [demoPost 1 "http://p/2"], 100⟩, ()⟩

/-- A world with one feed in which no post is stored. -/
def worldNoneKnown : World MemDB Unit :=
  ⟨⟨[demoFeed 7 "http://a.example" ⟨0, false⟩], [], 100⟩, ()⟩

/-! ## Command dispatch -/

/-- A command handler of the table `NewHandler` builds, its loops run for at
most the given number of cycles. -/
abbrev CommandHandler (σ ν : Type) := Nat → World σ ν → Command → AggResult σ ν

/-- The command table of `NewHandler` (`handlers.go`, lines 27-39).  The entry
`agg` is `HandleAgg`; the handlers of the other names are outside the
aggregation core and are given by `others`. -/
def commandMap {σ ν : Type} (E : Env σ ν) (others : String → Option (CommandHandler σ ν))
    (name : String) : Option (CommandHandler σ ν) :=
  if name = "agg" then some (HandleAgg E) else others name

/-- The method `Handler.Execute` of `handlers.go` (lines 43-49). -/
def Execute {σ ν : Type} (E : Env σ ν) (others : String → Option (CommandHandler σ ν))
    (fuel : Nat) (w : World σ ν) (cmd : Command) : AggResult σ ν :=
  match commandMap E others cmd.Name with
  | none => .returned ("unknown command: " ++ cmd.Name) w []
  | some handler => handler fuel w cmd

/-- The function `executeCommand` of `cmd/main.go` (lines 34-46), on the
process arguments `os.Args`: the command name is `args[1]`, in bounds by the
length check, and the command arguments are `args[2:]`, unchecked. -/
def executeCommand {σ ν : Type} (E : Env σ ν) (others : String → Option (CommandHandler σ ν))
    (fuel : Nat) (w : World σ ν) (args : List String) : AggResult σ ν :=
  if args.length < 2 then .returned "too few arguments" w []
  else Execute E others fuel w { Name := args.getD 1 "", Args := args.drop 2 }

/-! ## Requests and contexts of a trace -/

/-- The contexts and URLs `FetchFeed` was called with in a trace, in order. -/
def fetchCalls : List Event → List (Context × String)
  | [] => []
  | Event.FetchFeed ctx url :: tr => (ctx, url) :: fetchCalls tr
  | _ :: tr => fetchCalls tr

/-- The calls of `(*http.Client).Do` in a trace, in order, each with the
request it was handed.  A call is not a request on the wire: the client may
follow redirects within one call, or refuse a request without sending it. -/
def clientDoCalls : List Event → List Request
  | [] => []
  | Event.clientDo req :: tr => req :: clientDoCalls tr
  | _ :: tr => clientDoCalls tr

/-- The calls of `(*http.Client).Do` the fetch step of a cycle on feed URL
`url` makes: one call, with the request `http.NewRequestWithContext` built from
`context.Background()`, the method `GET` and the URL, or none when the request
could not be built. -/
def expectedDoCalls {σ ν : Type} (E : Env σ ν) (url : String) : List Request :=
  match E.NewRequestWithContext Context.Background "GET" url with
  | .error _ => []
  | .ok req => [req]

/-- The library `demoLib` with a duration parser that also accepts the strings
`0` and `-1.5h`, which `time.ParseDuration` parses to the zero duration and to
minus one and a half hours, and with a request builder that rejects the URL
`:` as `net/url` does. -/
def signedLib (served : String → Except Err rss.Feed) : Lib Unit :=
  { demoLib served with
    NewRequestWithContext := fun ctx method url =>
      if url = ":" then .error "parse \":\": missing protocol scheme"
      else .ok ⟨ctx, method, url⟩
    ParseDuration := fun s =>
      if s = "1m30s" then .ok 90000000000
      else if s = "0" then .ok 0
      else if s = "-1.5h" then .ok (-5400000000000)
      else .error "time: invalid duration"
    durationString := fun d =>
      if d = 90000000000 then "1m30s"
      else if d = 0 then "0s"
      else if d = -5400000000000 then "-1h30m0s"
      else "?" }

/-- The environment of the model store and `signedLib` in which every URL
serves a document without items. -/
def signedEnv : Env MemDB Unit :=
  memEnv (signedLib (fun _ => .ok (demoDoc [])))

/-- A world with one feed whose URL is `:`, which no request can be built
for. -/
def worldBadURL : World MemDB Unit :=
  ⟨⟨[demoFeed 7 ":" ⟨0, false⟩], [], 100⟩, ()⟩

/-! ## Lemmas on the embedding -/

section Lemmas

variable {σ ν : Type}

theorem FetchFeed_trace (E : Env σ ν) (ctx : Context) (url : String) (net : ν) :
    (FetchFeed E ctx url net).2.2 = [] ∨
      ∃ req, (FetchFeed E ctx url net).2.2 = [Event.clientDo req] := by
  unfold FetchFeed
  cases h0 : E.NewRequestWithContext ctx "GET" url with
  | error e => left; rfl
  | ok req =>
    right
    refine ⟨req, ?_⟩
    simp only
    rcases h1 : E.clientDo net req with ⟨r1, net1⟩
    cases r1 with
    | error e => rfl
    | ok res =>
      simp only
      rcases h2 : E.ReadAll net1 res with ⟨r2, net2⟩
      cases r2 with
      | error e => rfl
      | ok data =>
        simp only
        cases h3 : E.xmlUnmarshal data <;> rfl

theorem insertAttempts_append (xs ys : List Event) :
    insertAttempts (xs ++ ys) = insertAttempts xs ++ insertAttempts ys := by
  induction xs with
  | nil => rfl
  | cons x xs ih => cases x <;> simp [insertAttempts, ih]

theorem insertAttempts_FetchFeed (E : Env σ ν) (ctx : Context) (url : String) (net : ν) :
    insertAttempts (FetchFeed E ctx url net).2.2 = [] := by
  rcases FetchFeed_trace E ctx url net with h | ⟨req, h⟩ <;> rw [h] <;> rfl

theorem savePostToDB_trace (E : Env σ ν) (db : σ) (item : rss.Item) (feed : database.Feed) :
    insertAttempts (savePostToDB E db item feed).2.2 = expectedInserts E feed [item] := by
  unfold savePostToDB expectedInserts
  cases h : E.timeParseRFC1123 item.PubDate <;> simp [insertAttempts, expectedInserts, postOf]

theorem ingestLoop_events (E : Env σ ν) (feed : database.Feed) (items : List rss.Item) (db : σ) :
    ∀ ev ∈ (ingestLoop E feed items db).trace,
      (∃ arg, ev = Event.CreatePost arg) ∨ (∃ msg, ev = Event.logPrintf msg) := by
  induction items generalizing db with
  | nil => simp [ingestLoop]
  | cons item rest ih =>
    intro ev hev
    simp only [ingestLoop, List.mem_append] at hev
    rcases hev with (hev | hev) | hev
    · left
      unfold savePostToDB at hev
      cases h : E.timeParseRFC1123 item.PubDate with
      | error e => simp [h] at hev
      | ok t => simp [h] at hev; exact ⟨_, hev⟩
    · right
      split at hev
      · simp at hev
      · split at hev
        · simp at hev
        · simp at hev; exact ⟨_, hev⟩
    · exact ih _ ev hev

theorem ingestLoop_inserts (E : Env σ ν) (feed : database.Feed) (items : List rss.Item) (db : σ) :
    insertAttempts (ingestLoop E feed items db).trace = expectedInserts E feed items := by
  induction items generalizing db with
  | nil => rfl
  | cons item rest ih =>
    have hlog : ∀ (l : List Event), (∀ ev ∈ l, ∃ msg, ev = Event.logPrintf msg) →
        insertAttempts l = [] := by
      intro l hl
      induction l with
      | nil => rfl
      | cons a l ihl =>
        obtain ⟨msg, rfl⟩ := hl a (List.mem_cons_self _ _)
        simpa [insertAttempts] using ihl (fun ev hev => hl ev (List.mem_cons_of_mem _ hev))
    simp only [ingestLoop, insertAttempts_append, ih, savePostToDB_trace]
    rw [hlog]
    · cases h : E.timeParseRFC1123 item.PubDate <;> simp [expectedInserts, h]
    · intro ev hev
      split at hev
      · simp at hev
      · split at hev
        · simp at hev
        · simp at hev; exact ⟨_, hev⟩

/-- The cycle in which selection, stamping and fetching succeed. -/
theorem scrapeFeeds_of_fetched (E : Env σ ν) (w : World σ ν) (f : database.Feed) (db1 db2 : σ)
    (feed : rss.Feed) (net1 : ν) (tr : List Event)
    (hsel : E.GetNextFeedToFetch w.db = (.ok f, db1))
    (hstamp : E.MarkFeedFetched db1 f.ID = (none, db2))
    (hfetch : FetchFeed E Context.Background f.Url w.net = (.ok feed, net1, tr)) :
    scrapeFeeds E w =
      ⟨none, ⟨(ingestLoop E f feed.Channel.Items db2).db, net1⟩,
        [Event.GetNextFeedToFetch, Event.MarkFeedFetched f.ID,
          Event.FetchFeed Context.Background f.Url] ++ tr ++
          (ingestLoop E f feed.Channel.Items db2).trace⟩ := by
  simp [scrapeFeeds, hsel, hstamp, hfetch]

/-- The cycle in which selection and stamping succeed and fetching fails. -/
theorem scrapeFeeds_of_fetch_error (E : Env σ ν) (w : World σ ν) (f : database.Feed)
    (db1 db2 : σ) (e : Err) (net1 : ν) (tr : List Event)
    (hsel : E.GetNextFeedToFetch w.db = (.ok f, db1))
    (hstamp : E.MarkFeedFetched db1 f.ID = (none, db2))
    (hfetch : FetchFeed E Context.Background f.Url w.net = (.error e, net1, tr)) :
    scrapeFeeds E w =
      ⟨some e, ⟨db2, net1⟩,
        [Event.GetNextFeedToFetch, Event.MarkFeedFetched f.ID,
          Event.FetchFeed Context.Background f.Url] ++ tr⟩ := by
  simp [scrapeFeeds, hsel, hstamp, hfetch]

theorem expectedInserts_append (E : Env σ ν) (feed : database.Feed) (xs ys : List rss.Item) :
    expectedInserts E feed (xs ++ ys) = expectedInserts E feed xs ++ expectedInserts E feed ys := by
  induction xs with
  | nil => rfl
  | cons x xs ih =>
    cases h : E.timeParseRFC1123 x.PubDate <;> simp [expectedInserts, h, ih]

theorem expectedInserts_forall2 (E : Env σ ν) (feed : database.Feed) (xs : List rss.Item)
    (h : ∀ it ∈ xs, ∃ t, E.timeParseRFC1123 it.PubDate = .ok t) :
    List.Forall₂ (fun arg it => ∃ t, E.timeParseRFC1123 it.PubDate = .ok t ∧
        arg = postOf it t feed) (expectedInserts E feed xs) xs := by
  induction xs with
  | nil => exact List.Forall₂.nil
  | cons x xs ih =>
    obtain ⟨t, ht⟩ := h x (List.mem_cons_self _ _)
    simp only [expectedInserts, ht]
    exact List.Forall₂.cons ⟨t, ht, rfl⟩ (ih fun it hit => h it (List.mem_cons_of_mem _ hit))

theorem MemDB.CreatePost_urls (db : MemDB) (arg : database.CreatePostParams) :
    (db.CreatePost arg).2.urls = if arg.Url ∈ db.urls then db.urls else db.urls ++ [arg.Url] := by
  unfold MemDB.CreatePost
  split <;> simp [MemDB.urls]

theorem MemDB.CreatePost_frame (db : MemDB) (arg : database.CreatePostParams) :
    (db.CreatePost arg).2.feeds = db.feeds ∧ (db.CreatePost arg).2.now = db.now := by
  unfold MemDB.CreatePost
  split <;> simp

theorem savePostToDB_memEnv (L : Lib ν) (db : MemDB) (item : rss.Item) (f : database.Feed) :
    (savePostToDB (memEnv L) db item f).2.1.feeds = db.feeds ∧
    (savePostToDB (memEnv L) db item f).2.1.now = db.now ∧
    (db.urls.Nodup → (savePostToDB (memEnv L) db item f).2.1.urls.Nodup) ∧
    (∀ u ∈ db.urls, u ∈ (savePostToDB (memEnv L) db item f).2.1.urls) ∧
    (∀ t, L.timeParseRFC1123 item.PubDate = .ok t →
      item.Link ∈ (savePostToDB (memEnv L) db item f).2.1.urls) := by
  unfold savePostToDB
  cases h : (memEnv L).timeParseRFC1123 item.PubDate with
  | error e =>
    have h2 : L.timeParseRFC1123 item.PubDate = .error e := h
    simp [h2]
  | ok t =>
    have h2 : L.timeParseRFC1123 item.PubDate = .ok t := h
    simp only [memEnv, memStore]
    refine ⟨(MemDB.CreatePost_frame db _).1, (MemDB.CreatePost_frame db _).2, ?_, ?_, ?_⟩
    · intro hnd
      rw [MemDB.CreatePost_urls]
      split
      · exact hnd
      · rename_i hnot
        rw [List.nodup_append]
        refine ⟨hnd, List.nodup_singleton _, ?_⟩
        intro a ha hb
        simp at hb
        subst hb
        exact hnot ha
    · intro u hu
      rw [MemDB.CreatePost_urls]
      split
      · exact hu
      · exact List.mem_append_left _ hu
    · intro t2 _
      rw [MemDB.CreatePost_urls]
      split
      · rename_i hin; exact hin
      · simp

theorem ingestLoop_memEnv (L : Lib ν) (f : database.Feed) (items : List rss.Item) (db : MemDB) :
    (ingestLoop (memEnv L) f items db).db.feeds = db.feeds ∧
    (ingestLoop (memEnv L) f items db).db.now = db.now ∧
    (db.urls.Nodup → (ingestLoop (memEnv L) f items db).db.urls.Nodup) ∧
    (∀ u ∈ db.urls, u ∈ (ingestLoop (memEnv L) f items db).db.urls) ∧
    (∀ it ∈ items, ∀ t, L.timeParseRFC1123 it.PubDate = .ok t →
      it.Link ∈ (ingestLoop (memEnv L) f items db).db.urls) := by
  induction items generalizing db with
  | nil => simp [ingestLoop]
  | cons item rest ih =>
    obtain ⟨s1, s2, s3, s4, s5⟩ := savePostToDB_memEnv L db item f
    obtain ⟨i1, i2, i3, i4, i5⟩ := ih (savePostToDB (memEnv L) db item f).2.1
    simp only [ingestLoop]
    refine ⟨i1.trans s1, i2.trans s2, fun h => i3 (s3 h), fun u hu => i4 u (s4 u hu), ?_⟩
    intro it hit t ht
    rcases List.mem_cons.mp hit with rfl | hit
    · exact i4 _ (s5 t ht)
    · exact i5 it hit t ht

theorem MemDB.MarkFeedFetched_frame (db : MemDB) (id : Int) :
    (db.MarkFeedFetched id).1 = none ∧ (db.MarkFeedFetched id).2.posts = db.posts ∧
    (db.MarkFeedFetched id).2.now = db.now := ⟨rfl, rfl, rfl⟩

/-- The store state a cycle over the model store leaves: the state it found
when there is no feed, else the stamped state, with the batch ingested when the
fetch succeeded. -/
theorem scrapeFeeds_memEnv_db (L : Lib ν) (w : World MemDB ν) :
    (stalest w.db.feeds = none ∧ (scrapeFeeds (memEnv L) w).world.db = w.db) ∨
    ∃ f, stalest w.db.feeds = some f ∧
      (scrapeFeeds (memEnv L) w).trace.take 2 =
        [Event.GetNextFeedToFetch, Event.MarkFeedFetched f.ID] ∧
      (((∃ e net1 tr, FetchFeed (memEnv L) Context.Background f.Url w.net = (.error e, net1, tr)) ∧
          (scrapeFeeds (memEnv L) w).world.db = (w.db.MarkFeedFetched f.ID).2) ∨
        ∃ doc net1 tr,
          FetchFeed (memEnv L) Context.Background f.Url w.net = (.ok doc, net1, tr) ∧
          (scrapeFeeds (memEnv L) w).err = none ∧
          (scrapeFeeds (memEnv L) w).world.db =
            (ingestLoop (memEnv L) f doc.Channel.Items (w.db.MarkFeedFetched f.ID).2).db) := by
  cases hs : stalest w.db.feeds with
  | none =>
    left
    refine ⟨rfl, ?_⟩
    simp [scrapeFeeds, memEnv, memStore, MemDB.GetNextFeedToFetch, hs]
  | some f =>
    right
    refine ⟨f, rfl, ?_⟩
    have hsel : (memEnv L).GetNextFeedToFetch w.db = (.ok f, w.db) := by
      simp [memEnv, memStore, MemDB.GetNextFeedToFetch, hs]
    have hstamp : (memEnv L).MarkFeedFetched w.db f.ID = (none, (w.db.MarkFeedFetched f.ID).2) :=
      rfl
    rcases hf : FetchFeed (memEnv L) Context.Background f.Url w.net with ⟨r, net1, tr⟩
    cases r with
    | error e =>
      rw [scrapeFeeds_of_fetch_error (memEnv L) w f _ _ e net1 tr hsel hstamp hf]
      exact ⟨rfl, Or.inl ⟨⟨e, net1, tr, rfl⟩, rfl⟩⟩
    | ok doc =>
      rw [scrapeFeeds_of_fetched (memEnv L) w f _ _ doc net1 tr hsel hstamp hf]
      exact ⟨rfl, Or.inr ⟨doc, net1, tr, rfl, rfl, rfl⟩⟩

/-- A cycle over the model store keeps the stored URLs distinct and removes
none. -/
theorem scrapeFeeds_memEnv_urls (L : Lib ν) (w : World MemDB ν) :
    (w.db.urls.Nodup → (scrapeFeeds (memEnv L) w).world.db.urls.Nodup) ∧
    (∀ u ∈ w.db.urls, u ∈ (scrapeFeeds (memEnv L) w).world.db.urls) := by
  rcases scrapeFeeds_memEnv_db L w with ⟨_, h⟩ | ⟨f, _, _, ⟨_, h⟩ | ⟨doc, net1, tr, _, _, h⟩⟩
  · rw [h]; exact ⟨id, fun u hu => hu⟩
  · rw [h]; exact ⟨id, fun u hu => hu⟩
  · rw [h]
    obtain ⟨_, _, i3, i4, _⟩ :=
      ingestLoop_memEnv L f doc.Channel.Items (w.db.MarkFeedFetched f.ID).2
    exact ⟨i3, i4⟩

theorem savePostToDB_memEnv_known (L : Lib ν) (db : MemDB) (item : rss.Item)
    (f : database.Feed) (t : Timestamp) (hparse : L.timeParseRFC1123 item.PubDate = .ok t)
    (hin : item.Link ∈ db.urls) :
    savePostToDB (memEnv L) db item f =
      (some duplicateURLText, db, [Event.CreatePost (postOf item t f)]) := by
  have h2 : (memEnv L).timeParseRFC1123 item.PubDate = .ok t := hparse
  simp [savePostToDB, h2, hparse, memEnv, memStore, MemDB.CreatePost, hin, postOf]

theorem savePostToDB_memEnv_new (L : Lib ν) (db : MemDB) (item : rss.Item)
    (f : database.Feed) (t : Timestamp) (hparse : L.timeParseRFC1123 item.PubDate = .ok t)
    (hout : item.Link ∉ db.urls) :
    (savePostToDB (memEnv L) db item f).1 = none := by
  have h2 : (memEnv L).timeParseRFC1123 item.PubDate = .ok t := hparse
  simp [savePostToDB, h2, hparse, memEnv, memStore, MemDB.CreatePost, hout]

theorem isDuplicateURLError_text : isDuplicateURLError (some duplicateURLText) = true := by
  simp [isDuplicateURLError]

/-! ### The staleness order -/

theorem staleBefore_irrefl (a : database.Feed) : staleBefore a a = false := by
  unfold staleBefore
  cases a.LastFetchedAt.Valid <;> simp

theorem staleBefore_asymm (a b : database.Feed) (h : staleBefore a b = true) :
    staleBefore b a = false := by
  unfold staleBefore at h ⊢
  cases ha : a.LastFetchedAt.Valid <;> cases hb : b.LastFetchedAt.Valid <;>
    simp only [ha, hb] at h ⊢ <;> simp at h ⊢ <;> omega

theorem staleBefore_negtrans (a b c : database.Feed) (hab : staleBefore a b = false)
    (hbc : staleBefore b c = false) : staleBefore a c = false := by
  unfold staleBefore at hab hbc ⊢
  cases ha : a.LastFetchedAt.Valid <;> cases hb : b.LastFetchedAt.Valid <;>
    cases hc : c.LastFetchedAt.Valid <;>
    simp only [ha, hb, hc] at hab hbc ⊢ <;> simp at hab hbc ⊢ <;> omega

theorem stalest_isSome (fs : List database.Feed) (h : fs ≠ []) : ∃ f, stalest fs = some f := by
  cases fs with
  | nil => exact absurd rfl h
  | cons x xs =>
    simp only [stalest]
    cases stalest xs with
    | none => exact ⟨x, rfl⟩
    | some g => by_cases hg : staleBefore g x = true <;> simp [hg]

theorem stalest_spec (fs : List database.Feed) (f : database.Feed) (h : stalest fs = some f) :
    f ∈ fs ∧ ∀ g ∈ fs, staleBefore g f = false := by
  induction fs generalizing f with
  | nil => simp [stalest] at h
  | cons x xs ih =>
    simp only [stalest] at h
    cases hs : stalest xs with
    | none =>
      rw [hs] at h
      simp at h
      subst h
      cases xs with
      | nil => simpa using staleBefore_irrefl x
      | cons y ys =>
        obtain ⟨g, hg⟩ := stalest_isSome (y :: ys) (by simp)
        rw [hg] at hs
        cases hs
    | some m =>
      rw [hs] at h
      obtain ⟨hm, hmin⟩ := ih m hs
      by_cases hmx : staleBefore m x = true
      · simp [hmx] at h
        subst h
        refine ⟨List.mem_cons_of_mem _ hm, ?_⟩
        intro g hg
        rcases List.mem_cons.mp hg with rfl | hg
        · exact staleBefore_asymm _ _ hmx
        · exact hmin g hg
      · simp [hmx] at h
        subst h
        refine ⟨List.mem_cons_self _ _, ?_⟩
        intro g hg
        rcases List.mem_cons.mp hg with rfl | hg
        · exact staleBefore_irrefl _
        · exact staleBefore_negtrans g m _ (hmin g hg) (by simpa using hmx)

theorem staleBefore_false_iff (g f : database.Feed) (h : staleBefore g f = false) :
    f.LastFetchedAt.notAfter g.LastFetchedAt ∧
      (f.LastFetchedAt.same g.LastFetchedAt → f.ID ≤ g.ID) := by
  unfold staleBefore at h
  unfold NullTime.notAfter NullTime.same
  cases hg : g.LastFetchedAt.Valid <;> cases hf : f.LastFetchedAt.Valid <;>
    simp only [hg, hf] at h ⊢ <;> simp at h ⊢
  · exact h
  · constructor
    · omega
    · intro heq
      exact h.2 heq.symm

/-- The feed rows a cycle over the model store leaves: the rows it found when
there is no feed, else the rows after the stamp of the selected feed. -/
theorem scrapeFeeds_memEnv_feeds (L : Lib ν) (w : World MemDB ν) (f : database.Feed)
    (hsel : stalest w.db.feeds = some f) :
    (scrapeFeeds (memEnv L) w).world.db.feeds = (w.db.MarkFeedFetched f.ID).2.feeds ∧
    (scrapeFeeds (memEnv L) w).trace.take 2 =
      [Event.GetNextFeedToFetch, Event.MarkFeedFetched f.ID] := by
  rcases scrapeFeeds_memEnv_db L w with ⟨h0, _⟩ | ⟨f2, hf2, htr, ⟨_, h⟩ | ⟨doc, net1, tr, _, _, h⟩⟩
  · rw [hsel] at h0; cases h0
  · rw [hsel] at hf2; cases hf2
    exact ⟨by rw [h], htr⟩
  · rw [hsel] at hf2; cases hf2
    refine ⟨?_, htr⟩
    rw [h]
    exact (ingestLoop_memEnv L f doc.Channel.Items _).1

/-! ### Outcomes and warnings -/

theorem logLines_append (xs ys : List Event) :
    logLines (xs ++ ys) = logLines xs ++ logLines ys := by
  induction xs with
  | nil => rfl
  | cons x xs ih => cases x <;> simp [logLines, ih]

theorem savePostToDB_logLines (E : Env σ ν) (db : σ) (item : rss.Item) (feed : database.Feed) :
    logLines (savePostToDB E db item feed).2.2 = [] := by
  unfold savePostToDB
  cases h : E.timeParseRFC1123 item.PubDate <;> simp [logLines]

/-! ### Startup and the loop -/

theorem HandleAgg_of_positive (E : Env σ ν) (fuel : Nat) (w : World σ ν) (cmd : Command)
    (arg : String) (rest : List String) (d : Duration)
    (hargs : cmd.Args = arg :: rest) (hparse : E.ParseDuration arg = .ok d) (hpos : 0 < d) :
    HandleAgg E fuel w cmd =
      aggLoop E fuel w [Event.Println ("Collecting feeds every " ++ E.durationString d)] := by
  simp [HandleAgg, hargs, hparse, not_le.mpr hpos]

theorem aggLoop_trace_extends (E : Env σ ν) (fuel : Nat) (w : World σ ν) (tr : List Event) :
    ∃ more, (aggLoop E fuel w tr).trace = tr ++ more := by
  induction fuel generalizing w tr with
  | zero => exact ⟨[], by simp [aggLoop, AggResult.trace]⟩
  | succ m ih =>
    cases hv : (scrapeFeeds E w).err with
    | some e => exact ⟨(scrapeFeeds E w).trace, by simp [aggLoop, hv, AggResult.trace]⟩
    | none =>
      obtain ⟨more, hmore⟩ := ih (scrapeFeeds E w).world
        (tr ++ (scrapeFeeds E w).trace ++ [Event.tickerWait])
      refine ⟨(scrapeFeeds E w).trace ++ [Event.tickerWait] ++ more, ?_⟩
      simp only [aggLoop, hv]
      rw [hmore]
      simp [List.append_assoc]

theorem aggLoop_first_cycle (E : Env σ ν) (fuel : Nat) (w : World σ ν) (tr : List Event)
    (hfuel : 0 < fuel) :
    ∃ more, (aggLoop E fuel w tr).trace = tr ++ (scrapeFeeds E w).trace ++ more := by
  obtain ⟨n, rfl⟩ : ∃ n, fuel = n + 1 := ⟨fuel - 1, by omega⟩
  cases herr : (scrapeFeeds E w).err with
  | some e => exact ⟨[], by simp [aggLoop, herr, AggResult.trace]⟩
  | none =>
    obtain ⟨more, hmore⟩ := aggLoop_trace_extends E n (scrapeFeeds E w).world
      (tr ++ (scrapeFeeds E w).trace ++ [Event.tickerWait])
    refine ⟨[Event.tickerWait] ++ more, ?_⟩
    simp only [aggLoop, herr]
    rw [hmore]
    simp [List.append_assoc]

theorem aggLoop_not_panicked (E : Env σ ν) (fuel : Nat) (w : World σ ν) (tr : List Event)
    (msg : String) (w2 : World σ ν) (tr2 : List Event) :
    aggLoop E fuel w tr ≠ .panicked msg w2 tr2 := by
  induction fuel generalizing w tr with
  | zero => simp [aggLoop]
  | succ m ih =>
    cases hv : (scrapeFeeds E w).err with
    | some e => simp [aggLoop, hv]
    | none =>
      simp only [aggLoop, hv]
      exact ih _ _

/-! ### The loop over a split batch -/

theorem fetchCalls_append (xs ys : List Event) :
    fetchCalls (xs ++ ys) = fetchCalls xs ++ fetchCalls ys := by
  induction xs with
  | nil => rfl
  | cons x xs ih => cases x <;> simp [fetchCalls, ih]

theorem clientDoCalls_append (xs ys : List Event) :
    clientDoCalls (xs ++ ys) = clientDoCalls xs ++ clientDoCalls ys := by
  induction xs with
  | nil => rfl
  | cons x xs ih => cases x <;> simp [clientDoCalls, ih]

theorem ingestLoop_no_fetch (E : Env σ ν) (f : database.Feed) (items : List rss.Item) (db : σ) :
    fetchCalls (ingestLoop E f items db).trace = [] ∧
    clientDoCalls (ingestLoop E f items db).trace = [] := by
  have h : ∀ l : List Event,
      (∀ ev ∈ l, (∃ arg, ev = Event.CreatePost arg) ∨ (∃ msg, ev = Event.logPrintf msg)) →
      fetchCalls l = [] ∧ clientDoCalls l = [] := by
    intro l hl
    induction l with
    | nil => exact ⟨rfl, rfl⟩
    | cons a l ih =>
      obtain ⟨i1, i2⟩ := ih (fun ev hev => hl ev (List.mem_cons_of_mem _ hev))
      rcases hl a (List.mem_cons_self _ _) with ⟨arg, rfl⟩ | ⟨msg, rfl⟩ <;>
        exact ⟨by simpa [fetchCalls] using i1, by simpa [clientDoCalls] using i2⟩
  exact h _ (ingestLoop_events E f items db)

theorem FetchFeed_requests (E : Env σ ν) (url : String) (net : ν) :
    fetchCalls (FetchFeed E Context.Background url net).2.2 = [] ∧
    clientDoCalls (FetchFeed E Context.Background url net).2.2 = expectedDoCalls E url := by
  unfold FetchFeed expectedDoCalls
  cases h0 : E.NewRequestWithContext Context.Background "GET" url with
  | error e => exact ⟨rfl, rfl⟩
  | ok req =>
    simp only
    rcases h1 : E.clientDo net req with ⟨r1, net1⟩
    cases r1 with
    | error e => exact ⟨rfl, rfl⟩
    | ok res =>
      simp only
      rcases h2 : E.ReadAll net1 res with ⟨r2, net2⟩
      cases r2 with
      | error e => exact ⟨rfl, rfl⟩
      | ok data =>
        simp only
        cases h3 : E.xmlUnmarshal data <;> exact ⟨rfl, rfl⟩

end Lemmas

/-! ## The cycle: fatal steps, stamping, ingestion -/

section Cycle

variable {σ ν : Type}

/-- C1: one cycle returns the failing step's own error whenever selection,
stamping or fetching fails, and stops there: after a failed selection the
trace is the selection call alone, after a failed stamping it is the selection
and the stamping call, and after a failed fetch it is these two, the call of
`FetchFeed` and the requests `FetchFeed` issued, with no insert attempt. -/
theorem scrapeFeeds_returns_failing_step (E : Env σ ν) (w : World σ ν) :
    (∀ e db1, E.GetNextFeedToFetch w.db = (.error e, db1) →
      (scrapeFeeds E w).err = some e ∧
      (scrapeFeeds E w).trace = [Event.GetNextFeedToFetch]) ∧
    (∀ f db1 e db2, E.GetNextFeedToFetch w.db = (.ok f, db1) →
      E.MarkFeedFetched db1 f.ID = (some e, db2) →
      (scrapeFeeds E w).err = some e ∧
      (scrapeFeeds E w).trace = [Event.GetNextFeedToFetch, Event.MarkFeedFetched f.ID]) ∧
    (∀ f db1 db2 e net1 tr, E.GetNextFeedToFetch w.db = (.ok f, db1) →
      E.MarkFeedFetched db1 f.ID = (none, db2) →
      FetchFeed E Context.Background f.Url w.net = (.error e, net1, tr) →
      (scrapeFeeds E w).err = some e ∧
      (scrapeFeeds E w).trace =
        [Event.GetNextFeedToFetch, Event.MarkFeedFetched f.ID,
          Event.FetchFeed Context.Background f.Url] ++ tr ∧
      insertAttempts (scrapeFeeds E w).trace = []) := by
  refine ⟨?_, ?_, ?_⟩
  · intro e db1 hsel
    simp [scrapeFeeds, hsel]
  · intro f db1 e db2 hsel hstamp
    simp [scrapeFeeds, hsel, hstamp]
  · intro f db1 db2 e net1 tr hsel hstamp hfetch
    rw [scrapeFeeds_of_fetch_error E w f db1 db2 e net1 tr hsel hstamp hfetch]
    refine ⟨rfl, rfl, ?_⟩
    have h := insertAttempts_FetchFeed E Context.Background f.Url w.net
    rw [hfetch] at h
    simp only [insertAttempts_append, h]
    rfl

/-- C1, at three concrete cycles: no feed to select, a store that refuses the
stamp, and a feed whose host is down. -/
theorem scrapeFeeds_returns_failing_step_witness :
    ((scrapeFeeds (scriptedEnv (.error "sql: no rows in result set") none none
        (fun _ => .ok (demoDoc []))) ⟨(), ()⟩).err = some "sql: no rows in result set" ∧
      (scrapeFeeds (scriptedEnv (.error "sql: no rows in result set") none none
        (fun _ => .ok (demoDoc []))) ⟨(), ()⟩).trace = [Event.GetNextFeedToFetch]) ∧
    ((scrapeFeeds (scriptedEnv (.ok (demoFeed 7 "http://a.example" ⟨0, false⟩))
        (some "pq: connection lost") none (fun _ => .ok (demoDoc []))) ⟨(), ()⟩).err =
        some "pq: connection lost" ∧
      (scrapeFeeds (scriptedEnv (.ok (demoFeed 7 "http://a.example" ⟨0, false⟩))
        (some "pq: connection lost") none (fun _ => .ok (demoDoc []))) ⟨(), ()⟩).trace =
        [Event.GetNextFeedToFetch, Event.MarkFeedFetched 7]) ∧
    ((scrapeFeeds (scriptedEnv (.ok (demoFeed 7 "http://down.example" ⟨0, false⟩))
        none none (fun _ => .ok (demoDoc []))) ⟨(), ()⟩).err =
        some "dial tcp: connection refused" ∧
      insertAttempts (scrapeFeeds (scriptedEnv
        (.ok (demoFeed 7 "http://down.example" ⟨0, false⟩))
        none none (fun _ => .ok (demoDoc []))) ⟨(), ()⟩).trace = []) :=
  ⟨(scrapeFeeds_returns_failing_step
      (scriptedEnv (.error "sql: no rows in result set") none none
        (fun _ => .ok (demoDoc []))) ⟨(), ()⟩).1 _ () rfl,
   (scrapeFeeds_returns_failing_step
      (scriptedEnv (.ok (demoFeed 7 "http://a.example" ⟨0, false⟩))
        (some "pq: connection lost") none (fun _ => .ok (demoDoc []))) ⟨(), ()⟩).2.1
      _ () _ () rfl rfl,
   let h := (scrapeFeeds_returns_failing_step
      (scriptedEnv (.ok (demoFeed 7 "http://down.example" ⟨0, false⟩))
        none none (fun _ => .ok (demoDoc []))) ⟨(), ()⟩).2.2
      _ () () "dial tcp: connection refused" ()
      [Event.clientDo ⟨Context.Background, "GET", "http://down.example"⟩] rfl rfl rfl
   ⟨h.1, h.2.2⟩⟩

/-- C2: when selection succeeds with feed `f`, the trace of the cycle is the
selection call, then `MarkFeedFetched f.ID`, then the rest, and the rest holds
no further stamp; when the stamp succeeds the rest starts with the call of
`FetchFeed` on the feed's URL; and when that fetch fails the cycle returns the
fetch error and leaves the store in the state the stamp produced. -/
theorem scrapeFeeds_stamps_before_fetch (E : Env σ ν) (w : World σ ν) (f : database.Feed)
    (db1 : σ) (hsel : E.GetNextFeedToFetch w.db = (.ok f, db1)) :
    (∃ rest, (scrapeFeeds E w).trace =
        Event.GetNextFeedToFetch :: Event.MarkFeedFetched f.ID :: rest ∧
      (∀ id, Event.MarkFeedFetched id ∉ rest) ∧
      ((E.MarkFeedFetched db1 f.ID).1 = none →
        ∃ more, rest = Event.FetchFeed Context.Background f.Url :: more)) ∧
    (∀ e net1 tr, (E.MarkFeedFetched db1 f.ID).1 = none →
      FetchFeed E Context.Background f.Url w.net = (.error e, net1, tr) →
      (scrapeFeeds E w).err = some e ∧
      (scrapeFeeds E w).world.db = (E.MarkFeedFetched db1 f.ID).2) := by
  rcases hstamp : E.MarkFeedFetched db1 f.ID with ⟨r, db2⟩
  cases r with
  | some e =>
    refine ⟨⟨[], ?_, ?_, ?_⟩, ?_⟩
    · simp [scrapeFeeds, hsel, hstamp]
    · simp
    · simp
    · simp
  | none =>
    rcases hfetch : FetchFeed E Context.Background f.Url w.net with ⟨r, net1, tr⟩
    have htr : tr = [] ∨ ∃ req, tr = [Event.clientDo req] := by
      have h := FetchFeed_trace E Context.Background f.Url w.net
      rwa [hfetch] at h
    have htr2 : ∀ id, Event.MarkFeedFetched id ∉ tr := by
      intro id
      rcases htr with h | ⟨req, h⟩ <;> simp [h]
    cases r with
    | error e =>
      rw [scrapeFeeds_of_fetch_error E w f db1 db2 e net1 tr hsel hstamp hfetch]
      refine ⟨⟨Event.FetchFeed Context.Background f.Url :: tr, rfl, ?_, ?_⟩, ?_⟩
      · intro id hmem
        simp at hmem
        exact htr2 id hmem
      · intro _; exact ⟨tr, rfl⟩
      · intro e2 net2 tr2 _ h2
        simp at h2
        simp [h2.1]
    | ok feed =>
      rw [scrapeFeeds_of_fetched E w f db1 db2 feed net1 tr hsel hstamp hfetch]
      refine ⟨⟨Event.FetchFeed Context.Background f.Url :: tr ++
          (ingestLoop E f feed.Channel.Items db2).trace, by simp, ?_, ?_⟩, ?_⟩
      · intro id hmem
        simp at hmem
        rcases hmem with hmem | hmem
        · exact htr2 id hmem
        · rcases ingestLoop_events E f _ db2 _ hmem with ⟨a, h⟩ | ⟨m, h⟩ <;> cases h
      · intro _; exact ⟨_, rfl⟩
      · intro e2 net2 tr2 _ h2
        simp at h2

/-- C2, at a cycle of the model store whose only feed, never fetched, is served
by a host that is down: the cycle returns the transport error and the feed is
left stamped with the store clock. -/
theorem scrapeFeeds_stamps_before_fetch_witness :
    (scrapeFeeds (memEnv (demoLib (fun _ => .ok (demoDoc []))))
        ⟨⟨[demoFeed 7 "http://down.example" ⟨0, false⟩], [], 100⟩, ()⟩).err =
        some "dial tcp: connection refused" ∧
    (scrapeFeeds (memEnv (demoLib (fun _ => .ok (demoDoc []))))
        ⟨⟨[demoFeed 7 "http://down.example" ⟨0, false⟩], [], 100⟩, ()⟩).world.db =
        ⟨[demoFeed 7 "http://down.example" ⟨100, true⟩], [], 100⟩ :=
  (scrapeFeeds_stamps_before_fetch
      (memEnv (demoLib (fun _ => .ok (demoDoc []))))
      ⟨⟨[demoFeed 7 "http://down.example" ⟨0, false⟩], [], 100⟩, ()⟩
      (demoFeed 7 "http://down.example" ⟨0, false⟩)
      ⟨[demoFeed 7 "http://down.example" ⟨0, false⟩], [], 100⟩ rfl).2
    "dial tcp: connection refused" ()
    [Event.clientDo ⟨Context.Background, "GET", "http://down.example"⟩] rfl rfl

/-- C3: the insert attempts of a cycle that fetched a document are the posts
of the items whose publish date parses, in document order, whatever the store
answers to each insert; so when exactly the item at position `k` fails to
parse there are `N - 1` attempts, one for each other item, in order. -/
theorem scrapeFeeds_inserts_parseable_in_order (E : Env σ ν) (w : World σ ν)
    (f : database.Feed) (db1 db2 : σ) (feed : rss.Feed) (net1 : ν) (tr : List Event)
    (hsel : E.GetNextFeedToFetch w.db = (.ok f, db1))
    (hstamp : E.MarkFeedFetched db1 f.ID = (none, db2))
    (hfetch : FetchFeed E Context.Background f.Url w.net = (.ok feed, net1, tr)) :
    insertAttempts (scrapeFeeds E w).trace = expectedInserts E f feed.Channel.Items ∧
    insertAttempts (ingestLoop E f feed.Channel.Items db2).trace =
      expectedInserts E f feed.Channel.Items ∧
    (∀ (pre post : List rss.Item) (bad : rss.Item),
      feed.Channel.Items = pre ++ bad :: post →
      (∀ e, E.timeParseRFC1123 bad.PubDate ≠ .ok e) →
      (∀ it ∈ pre ++ post, ∃ t, E.timeParseRFC1123 it.PubDate = .ok t) →
      (insertAttempts (scrapeFeeds E w).trace).length = feed.Channel.Items.length - 1 ∧
      List.Forall₂ (fun arg it => ∃ t, E.timeParseRFC1123 it.PubDate = .ok t ∧
          arg = postOf it t f)
        (insertAttempts (scrapeFeeds E w).trace) (pre ++ post)) := by
  have hall : insertAttempts (scrapeFeeds E w).trace =
      expectedInserts E f feed.Channel.Items := by
    rw [scrapeFeeds_of_fetched E w f db1 db2 feed net1 tr hsel hstamp hfetch]
    have h := insertAttempts_FetchFeed E Context.Background f.Url w.net
    rw [hfetch] at h
    simp only [insertAttempts_append, h, ingestLoop_inserts]
    simp [insertAttempts]
  refine ⟨hall, ingestLoop_inserts E f _ db2, ?_⟩
  intro pre post bad hitems hbad hgood
  have hskip : expectedInserts E f (pre ++ bad :: post) = expectedInserts E f (pre ++ post) := by
    rw [expectedInserts_append, expectedInserts_append]
    congr 1
    cases hb : E.timeParseRFC1123 bad.PubDate with
    | error e => simp [expectedInserts, hb]
    | ok t => exact absurd hb (hbad t)
  have hf := expectedInserts_forall2 E f (pre ++ post) hgood
  rw [hall, hitems, hskip]
  refine ⟨?_, hf⟩
  rw [hf.length_eq]
  simp

/-- C3, at a cycle of the model store that fetches three items of which the
second has an unparseable date: two insert attempts, for the first and the
third item, in that order. -/
theorem scrapeFeeds_inserts_parseable_in_order_witness :
    insertAttempts (scrapeFeeds
        (memEnv (demoLib (fun _ => .ok (demoDoc
          [demoItem "http://p/1" demoDate, demoItem "http://p/2" "yesterday",
            demoItem "http://p/3" demoDate]))))
        ⟨⟨[demoFeed 7 "http://a.example" ⟨0, false⟩], [], 100⟩, ()⟩).trace =
      [postOf (demoItem "http://p/1" demoDate) 1136239445
          (demoFeed 7 "http://a.example" ⟨0, false⟩),
        postOf (demoItem "http://p/3" demoDate) 1136239445
          (demoFeed 7 "http://a.example" ⟨0, false⟩)] ∧
    (insertAttempts (scrapeFeeds
        (memEnv (demoLib (fun _ => .ok (demoDoc
          [demoItem "http://p/1" demoDate, demoItem "http://p/2" "yesterday",
            demoItem "http://p/3" demoDate]))))
        ⟨⟨[demoFeed 7 "http://a.example" ⟨0, false⟩], [], 100⟩, ()⟩).trace).length = 2 := by
  have h := scrapeFeeds_inserts_parseable_in_order
    (memEnv (demoLib (fun _ => .ok (demoDoc
      [demoItem "http://p/1" demoDate, demoItem "http://p/2" "yesterday",
        demoItem "http://p/3" demoDate]))))
    ⟨⟨[demoFeed 7 "http://a.example" ⟨0, false⟩], [], 100⟩, ()⟩
    (demoFeed 7 "http://a.example" ⟨0, false⟩)
    ⟨[demoFeed 7 "http://a.example" ⟨0, false⟩], [], 100⟩
    ⟨[demoFeed 7 "http://a.example" ⟨100, true⟩], [], 100⟩
    (demoDoc [demoItem "http://p/1" demoDate, demoItem "http://p/2" "yesterday",
      demoItem "http://p/3" demoDate]) ()
    [Event.clientDo ⟨Context.Background, "GET", "http://a.example"⟩] rfl rfl rfl
  refine ⟨h.1, ?_⟩
  exact (h.2.2 [demoItem "http://p/1" demoDate] [demoItem "http://p/3" demoDate]
    (demoItem "http://p/2" "yesterday") rfl
    (by
      intro e he
      have h2 : (Except.error "parsing time: cannot parse" : Except Err Timestamp) = .ok e := he
      cases h2)
    (by
      intro it hit
      simp only [List.cons_append, List.nil_append, List.mem_cons, List.mem_singleton,
        List.not_mem_nil, or_false] at hit
      rcases hit with rfl | rfl <;> exact ⟨1136239445, rfl⟩)).1

/-- C4: when selection, stamping and fetching succeeded, the cycle returns no
error, whatever the items are and whatever each date parse and each insert
answers. -/
theorem scrapeFeeds_ingest_returns_nil (E : Env σ ν) (w : World σ ν)
    (f : database.Feed) (db1 db2 : σ) (feed : rss.Feed) (net1 : ν) (tr : List Event)
    (hsel : E.GetNextFeedToFetch w.db = (.ok f, db1))
    (hstamp : E.MarkFeedFetched db1 f.ID = (none, db2))
    (hfetch : FetchFeed E Context.Background f.Url w.net = (.ok feed, net1, tr)) :
    (scrapeFeeds E w).err = none := by
  rw [scrapeFeeds_of_fetched E w f db1 db2 feed net1 tr hsel hstamp hfetch]

/-- C4, at a cycle against a store that refuses every insert with a
connectivity error, on a batch with a parseable and an unparseable item. -/
theorem scrapeFeeds_ingest_returns_nil_witness :
    (scrapeFeeds
        (scriptedEnv (.ok (demoFeed 7 "http://a.example" ⟨0, false⟩)) none
          (some "pq: connection lost")
          (fun _ => .ok (demoDoc
            [demoItem "http://p/1" demoDate, demoItem "http://p/2" "yesterday"])))
        ⟨(), ()⟩).err = none :=
  scrapeFeeds_ingest_returns_nil
    (scriptedEnv (.ok (demoFeed 7 "http://a.example" ⟨0, false⟩)) none
      (some "pq: connection lost")
      (fun _ => .ok (demoDoc
        [demoItem "http://p/1" demoDate, demoItem "http://p/2" "yesterday"])))
    ⟨(), ()⟩ (demoFeed 7 "http://a.example" ⟨0, false⟩) () ()
    (demoDoc [demoItem "http://p/1" demoDate, demoItem "http://p/2" "yesterday"]) ()
    [Event.clientDo ⟨Context.Background, "GET", "http://a.example"⟩] rfl rfl rfl

end Cycle

/-! ## Building a post, unescaping a feed -/

section Items

variable {σ ν : Type}

/-- C8: for an item whose publish-date text parses to `t`, `savePostToDB` makes
exactly one insert attempt; its post has the item's title, the item's link as
URL, the item's description, the timestamp `t` marked present and the owning
feed's identity, and the result and store state are those of that insert.  For
an item whose publish-date text does not parse, it returns the parse error,
leaves the store as it was and attempts no insert. -/
theorem savePostToDB_builds_post (E : Env σ ν) (db : σ) (item : rss.Item)
    (feed : database.Feed) :
    (∀ t, E.timeParseRFC1123 item.PubDate = .ok t →
      ∃ arg : database.CreatePostParams,
        (savePostToDB E db item feed).2.2 = [Event.CreatePost arg] ∧
        arg.Title = item.Title ∧ arg.Url = item.Link ∧
        arg.Description = ⟨item.Description, true⟩ ∧
        arg.PublishedAt = ⟨t, true⟩ ∧ arg.FeedID = feed.ID ∧
        (savePostToDB E db item feed).1 = (E.CreatePost db arg).1 ∧
        (savePostToDB E db item feed).2.1 = (E.CreatePost db arg).2) ∧
    (∀ e, E.timeParseRFC1123 item.PubDate = .error e →
      savePostToDB E db item feed = (some e, db, [])) := by
  constructor
  · intro t ht
    refine ⟨postOf item t feed, ?_, rfl, rfl, rfl, rfl, rfl, ?_, ?_⟩ <;>
      simp [savePostToDB, ht, postOf]
  · intro e he
    simp [savePostToDB, he]

/-- C8, at an item with a parseable date and at an item with an unparseable
one, against the empty model store. -/
theorem savePostToDB_builds_post_witness :
    (∃ arg : database.CreatePostParams,
        (savePostToDB (memEnv (demoLib (fun _ => .ok (demoDoc []))))
          ⟨[], [], 100⟩ (demoItem "http://p/1" demoDate)
          (demoFeed 7 "http://a.example" ⟨0, false⟩)).2.2 = [Event.CreatePost arg] ∧
        arg.Title = "post" ∧ arg.Url = "http://p/1" ∧ arg.Description = ⟨"body", true⟩ ∧
        arg.PublishedAt = ⟨1136239445, true⟩ ∧ arg.FeedID = 7) ∧
    savePostToDB (memEnv (demoLib (fun _ => .ok (demoDoc []))))
        ⟨[], [], 100⟩ (demoItem "http://p/2" "yesterday")
        (demoFeed 7 "http://a.example" ⟨0, false⟩) =
      (some "parsing time: cannot parse", ⟨[], [], 100⟩, []) := by
  refine ⟨?_, ?_⟩
  · obtain ⟨arg, h1, h2, h3, h4, h5, h6, _⟩ :=
      (savePostToDB_builds_post (memEnv (demoLib (fun _ => .ok (demoDoc []))))
        ⟨[], [], 100⟩ (demoItem "http://p/1" demoDate)
        (demoFeed 7 "http://a.example" ⟨0, false⟩)).1 1136239445 rfl
    exact ⟨arg, h1, h2, h3, h4, h5, h6⟩
  · exact (savePostToDB_builds_post (memEnv (demoLib (fun _ => .ok (demoDoc []))))
      ⟨[], [], 100⟩ (demoItem "http://p/2" "yesterday")
      (demoFeed 7 "http://a.example" ⟨0, false⟩)).2 "parsing time: cannot parse" rfl

/-- C9: `unescapeStrings` replaces the channel title, the channel description
and every item's title and description by their unescaped form and changes
nothing else: the channel link, every item's link and publish-date text and the
number and order of the items stay; and a feed `FetchFeed` returns is the
unmarshalled document after this pass. -/
theorem unescapeStrings_frame (E : Env σ ν) (feed : rss.Feed) :
    (unescapeStrings E feed).Channel.Title = E.UnescapeString feed.Channel.Title ∧
    (unescapeStrings E feed).Channel.Description =
      E.UnescapeString feed.Channel.Description ∧
    (unescapeStrings E feed).Channel.Link = feed.Channel.Link ∧
    (unescapeStrings E feed).Channel.Items.length = feed.Channel.Items.length ∧
    (unescapeStrings E feed).Channel.Items.map (fun it => it.Title) =
      feed.Channel.Items.map (fun it => E.UnescapeString it.Title) ∧
    (unescapeStrings E feed).Channel.Items.map (fun it => it.Description) =
      feed.Channel.Items.map (fun it => E.UnescapeString it.Description) ∧
    (unescapeStrings E feed).Channel.Items.map (fun it => it.Link) =
      feed.Channel.Items.map (fun it => it.Link) ∧
    (unescapeStrings E feed).Channel.Items.map (fun it => it.PubDate) =
      feed.Channel.Items.map (fun it => it.PubDate) ∧
    (∀ ctx url net out net1 tr, FetchFeed E ctx url net = (.ok out, net1, tr) →
      ∃ data parsed, E.xmlUnmarshal data = .ok parsed ∧ out = unescapeStrings E parsed) := by
  refine ⟨rfl, rfl, rfl, ?_, ?_, ?_, ?_, ?_, ?_⟩
  · simp [unescapeStrings]
  · simp [unescapeStrings, Function.comp_def]
  · simp [unescapeStrings, Function.comp_def]
  · simp [unescapeStrings, Function.comp_def]
  · simp [unescapeStrings, Function.comp_def]
  · intro ctx url net out net1 tr h
    unfold FetchFeed at h
    cases h0 : E.NewRequestWithContext ctx "GET" url with
    | error e => simp [h0] at h
    | ok req =>
      simp only [h0] at h
      rcases h1 : E.clientDo net req with ⟨r1, n1⟩
      cases r1 with
      | error e => simp [h1] at h
      | ok res =>
        simp only [h1] at h
        rcases h2 : E.ReadAll n1 res with ⟨r2, n2⟩
        cases r2 with
        | error e => simp [h2] at h
        | ok data =>
          simp only [h2] at h
          cases h3 : E.xmlUnmarshal data with
          | error e => simp [h3] at h
          | ok parsed =>
            simp [h3] at h
            exact ⟨data, parsed, h3, h.1.symm⟩

/-- C9, at a fetch that serves a document with an escaped channel title. -/
theorem unescapeStrings_frame_witness :
    ∃ data parsed,
      (demoLib (fun _ => .ok ⟨⟨"R&amp;D", "http://blog.example", "d",
        [demoItem "http://p/1" demoDate]⟩⟩)).xmlUnmarshal data = .ok parsed ∧
      (⟨⟨"R&D", "http://blog.example", "d", [demoItem "http://p/1" demoDate]⟩⟩ : rss.Feed) =
        unescapeStrings (memEnv (demoLib (fun _ => .ok ⟨⟨"R&amp;D", "http://blog.example", "d",
          [demoItem "http://p/1" demoDate]⟩⟩))) parsed :=
  (unescapeStrings_frame (memEnv (demoLib (fun _ => .ok ⟨⟨"R&amp;D", "http://blog.example", "d",
      [demoItem "http://p/1" demoDate]⟩⟩))) (demoDoc [])).2.2.2.2.2.2.2.2
    Context.Background "http://a.example" ()
    ⟨⟨"R&D", "http://blog.example", "d", [demoItem "http://p/1" demoDate]⟩⟩ ()
    [Event.clientDo ⟨Context.Background, "GET", "http://a.example"⟩] rfl

end Items

/-! ## The scheduler loop -/

section Scheduler

variable {σ ν : Type}

end Scheduler

/-! ## Ingestion against the model store -/

section ModelStore

variable {ν : Type}

/-- C5: against the model store, which enforces the uniqueness of post URLs,
and for an item with a parseable date: saving the item a second time is
answered by an error `isDuplicateURLError` accepts and leaves the store as the
first attempt left it; a batch holding the item twice, a cycle whose batch
holds the item, and a second cycle that fetches an item with the same URL
again, all leave exactly one stored post with that URL, and these cycles return
no error. -/
theorem ingest_twice_stores_once (L : Lib ν) (item : rss.Item) (t : Timestamp)
    (hparse : L.timeParseRFC1123 item.PubDate = .ok t) :
    (∀ (db : MemDB) (f : database.Feed), db.urls.Nodup →
      isDuplicateURLError
        (savePostToDB (memEnv L) (savePostToDB (memEnv L) db item f).2.1 item f).1 = true ∧
      (savePostToDB (memEnv L) (savePostToDB (memEnv L) db item f).2.1 item f).2.1 =
        (savePostToDB (memEnv L) db item f).2.1 ∧
      (ingestLoop (memEnv L) f [item, item] db).errs.map isDuplicateURLError =
        [decide (item.Link ∈ db.urls), true] ∧
      (ingestLoop (memEnv L) f [item, item] db).db.urls.count item.Link = 1) ∧
    (∀ (w : World MemDB ν) (f : database.Feed) (doc : rss.Feed) (net1 : ν) (tr : List Event),
      w.db.urls.Nodup → stalest w.db.feeds = some f →
      FetchFeed (memEnv L) Context.Background f.Url w.net = (.ok doc, net1, tr) →
      item ∈ doc.Channel.Items →
      (scrapeFeeds (memEnv L) w).err = none ∧
      (scrapeFeeds (memEnv L) w).world.db.urls.count item.Link = 1 ∧
      ∀ (f2 : database.Feed) (doc2 : rss.Feed) (net2 : ν) (tr2 : List Event)
        (again : rss.Item) (t2 : Timestamp),
        stalest (scrapeFeeds (memEnv L) w).world.db.feeds = some f2 →
        FetchFeed (memEnv L) Context.Background f2.Url (scrapeFeeds (memEnv L) w).world.net =
          (.ok doc2, net2, tr2) →
        again ∈ doc2.Channel.Items → again.Link = item.Link →
        L.timeParseRFC1123 again.PubDate = .ok t2 →
        (scrapeFeeds (memEnv L) (scrapeFeeds (memEnv L) w).world).err = none ∧
        (scrapeFeeds (memEnv L) (scrapeFeeds (memEnv L) w).world).world.db.urls.count
          item.Link = 1) := by
  have hcycle : ∀ (w : World MemDB ν) (f : database.Feed) (doc : rss.Feed) (net1 : ν)
      (tr : List Event) (it : rss.Item) (ti : Timestamp),
      w.db.urls.Nodup → stalest w.db.feeds = some f →
      FetchFeed (memEnv L) Context.Background f.Url w.net = (.ok doc, net1, tr) →
      it ∈ doc.Channel.Items → L.timeParseRFC1123 it.PubDate = .ok ti →
      (scrapeFeeds (memEnv L) w).err = none ∧
      (scrapeFeeds (memEnv L) w).world.db.urls.count it.Link = 1 := by
    intro w f doc net1 tr it ti hnd hsel hfetch hmem hti
    have hsel2 : (memEnv L).GetNextFeedToFetch w.db = (.ok f, w.db) := by
      simp [memEnv, memStore, MemDB.GetNextFeedToFetch, hsel]
    have hstamp : (memEnv L).MarkFeedFetched w.db f.ID = (none, (w.db.MarkFeedFetched f.ID).2) :=
      rfl
    rw [scrapeFeeds_of_fetched (memEnv L) w f _ _ doc net1 tr hsel2 hstamp hfetch]
    obtain ⟨_, _, i3, _, i5⟩ :=
      ingestLoop_memEnv L f doc.Channel.Items (w.db.MarkFeedFetched f.ID).2
    exact ⟨rfl, List.count_eq_one_of_mem (i3 hnd) (i5 it hmem ti hti)⟩
  constructor
  · intro db f hnd
    obtain ⟨_, _, s3, _, s5⟩ := savePostToDB_memEnv L db item f
    have hin := s5 t hparse
    have hsecond := savePostToDB_memEnv_known L (savePostToDB (memEnv L) db item f).2.1
      item f t hparse hin
    refine ⟨?_, ?_, ?_, ?_⟩
    · rw [hsecond]; exact isDuplicateURLError_text
    · rw [hsecond]
    · simp only [ingestLoop, List.map_cons, List.map_nil, hsecond, isDuplicateURLError_text]
      congr 1
      by_cases hdb : item.Link ∈ db.urls
      · rw [savePostToDB_memEnv_known L db item f t hparse hdb]
        simp [isDuplicateURLError_text, hdb]
      · rw [savePostToDB_memEnv_new L db item f t hparse hdb]
        simp [isDuplicateURLError, hdb]
    · obtain ⟨_, _, i3, _, i5⟩ := ingestLoop_memEnv L f [item, item] db
      exact List.count_eq_one_of_mem (i3 hnd) (i5 item (List.mem_cons_self _ _) t hparse)
  · intro w f doc net1 tr hnd hsel hfetch hmem
    obtain ⟨h1, h2⟩ := hcycle w f doc net1 tr item t hnd hsel hfetch hmem hparse
    refine ⟨h1, h2, ?_⟩
    intro f2 doc2 net2 tr2 again t2 hsel2 hfetch2 hmem2 hlink ht2
    have hnd2 := (scrapeFeeds_memEnv_urls L w).1 hnd
    have h := hcycle (scrapeFeeds (memEnv L) w).world f2 doc2 net2 tr2 again t2 hnd2 hsel2
      hfetch2 hmem2 ht2
    rw [hlink] at h
    exact h

/-- C5, at the empty model store with one feed whose document holds the same
item twice, over two successive cycles: the second attempt is the duplicate,
both cycles return no error, and one post with the URL is stored. -/
theorem ingest_twice_stores_once_witness :
    (ingestLoop (memEnv (demoLib (fun _ => .ok (demoDoc
        [demoItem "http://p/1" demoDate, demoItem "http://p/1" demoDate]))))
      (demoFeed 7 "http://a.example" ⟨0, false⟩)
      [demoItem "http://p/1" demoDate, demoItem "http://p/1" demoDate]
      ⟨[demoFeed 7 "http://a.example" ⟨0, false⟩], [], 100⟩).errs.map isDuplicateURLError =
      [false, true] ∧
    (scrapeFeeds (memEnv (demoLib (fun _ => .ok (demoDoc
        [demoItem "http://p/1" demoDate, demoItem "http://p/1" demoDate]))))
      ⟨⟨[demoFeed 7 "http://a.example" ⟨0, false⟩], [], 100⟩, ()⟩).err = none ∧
    (scrapeFeeds (memEnv (demoLib (fun _ => .ok (demoDoc
        [demoItem "http://p/1" demoDate, demoItem "http://p/1" demoDate]))))
      (scrapeFeeds (memEnv (demoLib (fun _ => .ok (demoDoc
        [demoItem "http://p/1" demoDate, demoItem "http://p/1" demoDate]))))
        ⟨⟨[demoFeed 7 "http://a.example" ⟨0, false⟩], [], 100⟩, ()⟩).world).err = none ∧
    (scrapeFeeds (memEnv (demoLib (fun _ => .ok (demoDoc
        [demoItem "http://p/1" demoDate, demoItem "http://p/1" demoDate]))))
      (scrapeFeeds (memEnv (demoLib (fun _ => .ok (demoDoc
        [demoItem "http://p/1" demoDate, demoItem "http://p/1" demoDate]))))
        ⟨⟨[demoFeed 7 "http://a.example" ⟨0, false⟩], [], 100⟩, ()⟩).world).world.db.urls.count
      "http://p/1" = 1 := by
  have h := ingest_twice_stores_once
    (demoLib (fun _ => .ok (demoDoc
      [demoItem "http://p/1" demoDate, demoItem "http://p/1" demoDate])))
    (demoItem "http://p/1" demoDate) 1136239445 rfl
  obtain ⟨h1, _, h3⟩ := h.2 ⟨⟨[demoFeed 7 "http://a.example" ⟨0, false⟩], [], 100⟩, ()⟩
    (demoFeed 7 "http://a.example" ⟨0, false⟩)
    (demoDoc [demoItem "http://p/1" demoDate, demoItem "http://p/1" demoDate]) ()
    [Event.clientDo ⟨Context.Background, "GET", "http://a.example"⟩]
    (by decide) rfl rfl (by decide)
  have h4 := h3 (demoFeed 7 "http://a.example" ⟨100, true⟩)
    (demoDoc [demoItem "http://p/1" demoDate, demoItem "http://p/1" demoDate]) ()
    [Event.clientDo ⟨Context.Background, "GET", "http://a.example"⟩]
    (demoItem "http://p/1" demoDate) 1136239445 rfl rfl (by decide) rfl rfl
  exact ⟨(h.1 ⟨[demoFeed 7 "http://a.example" ⟨0, false⟩], [], 100⟩
    (demoFeed 7 "http://a.example" ⟨0, false⟩) (by decide)).2.2.1, h1, h4.1, h4.2⟩

/-- C6: on the model store with at least one feed, `GetNextFeedToFetch`
returns a stored feed whose last-fetched stamp is not after that of any other
feed, a null stamp being before every timestamp, and among the feeds with that
same stamp the one with the least identity; it leaves the store unchanged.
With the two feeds `A`, never fetched, and `B`, fetched before the current
time, the cycle selects and stamps `A`, and the next cycle selects and stamps
`B`. -/
theorem GetNextFeedToFetch_selects_stalest (L : Lib ν) :
    (∀ db : MemDB, db.feeds ≠ [] →
      ∃ f, memStore.GetNextFeedToFetch db = (.ok f, db) ∧ f ∈ db.feeds ∧
        ∀ g ∈ db.feeds, f.LastFetchedAt.notAfter g.LastFetchedAt ∧
          (f.LastFetchedAt.same g.LastFetchedAt → f.ID ≤ g.ID)) ∧
    (∀ (w : World MemDB ν) (A B : database.Feed),
      (w.db.feeds = [A, B] ∨ w.db.feeds = [B, A]) →
      A.LastFetchedAt.Valid = false → B.LastFetchedAt.Valid = true →
      B.LastFetchedAt.Time < w.db.now → A.ID ≠ B.ID →
      memStore.GetNextFeedToFetch w.db = (.ok A, w.db) ∧
      (scrapeFeeds (memEnv L) w).trace.take 2 =
        [Event.GetNextFeedToFetch, Event.MarkFeedFetched A.ID] ∧
      (memStore.GetNextFeedToFetch (scrapeFeeds (memEnv L) w).world.db).1 = .ok B ∧
      (scrapeFeeds (memEnv L) (scrapeFeeds (memEnv L) w).world).trace.take 2 =
        [Event.GetNextFeedToFetch, Event.MarkFeedFetched B.ID]) := by
  constructor
  · intro db hne
    obtain ⟨f, hf⟩ := stalest_isSome db.feeds hne
    obtain ⟨hmem, hmin⟩ := stalest_spec db.feeds f hf
    refine ⟨f, ?_, hmem, fun g hg => staleBefore_false_iff g f (hmin g hg)⟩
    simp [memStore, MemDB.GetNextFeedToFetch, hf]
  · intro w A B hfeeds hA hB hlt hne
    have hAB : staleBefore A B = true := by simp [staleBefore, hA, hB]
    have hBA : staleBefore B A = false := staleBefore_asymm A B hAB
    have hselA : stalest w.db.feeds = some A := by
      rcases hfeeds with h | h <;> rw [h] <;> simp [stalest, hAB, hBA]
    obtain ⟨hfeeds1, htr1⟩ := scrapeFeeds_memEnv_feeds L w A hselA
    have hneBA : ¬ B.ID = A.ID := fun h => hne h.symm
    have hselB : stalest (scrapeFeeds (memEnv L) w).world.db.feeds = some B := by
      rw [hfeeds1]
      rcases hfeeds with h | h <;> rw [MemDB.MarkFeedFetched, h] <;>
        simp [stalest, staleBefore, hB, hlt, hneBA, not_lt.mpr (le_of_lt hlt),
          ne_of_gt hlt]
    obtain ⟨_, htr2⟩ := scrapeFeeds_memEnv_feeds L (scrapeFeeds (memEnv L) w).world B hselB
    refine ⟨?_, htr1, ?_, htr2⟩
    · simp [memStore, MemDB.GetNextFeedToFetch, hselA]
    · simp [memStore, MemDB.GetNextFeedToFetch, hselB]

/-- C6, at the model store with feed 1 never fetched and feed 2 fetched 600
time units before the current time 1000. -/
theorem GetNextFeedToFetch_selects_stalest_witness :
    memStore.GetNextFeedToFetch
        ⟨[demoFeed 1 "http://a.example" ⟨0, false⟩, demoFeed 2 "http://b.example" ⟨400, true⟩],
          [], 1000⟩ =
      (.ok (demoFeed 1 "http://a.example" ⟨0, false⟩),
        ⟨[demoFeed 1 "http://a.example" ⟨0, false⟩, demoFeed 2 "http://b.example" ⟨400, true⟩],
          [], 1000⟩) ∧
    (memStore.GetNextFeedToFetch (scrapeFeeds (memEnv (demoLib (fun _ => .ok (demoDoc []))))
        ⟨⟨[demoFeed 1 "http://a.example" ⟨0, false⟩,
            demoFeed 2 "http://b.example" ⟨400, true⟩], [], 1000⟩, ()⟩).world.db).1 =
      .ok (demoFeed 2 "http://b.example" ⟨400, true⟩) ∧
    (∃ f, f ∈ [demoFeed 3 "http://c.example" ⟨400, true⟩,
          demoFeed 2 "http://b.example" ⟨400, true⟩] ∧
        ∀ g ∈ [demoFeed 3 "http://c.example" ⟨400, true⟩,
            demoFeed 2 "http://b.example" ⟨400, true⟩],
          f.LastFetchedAt.notAfter g.LastFetchedAt ∧
            (f.LastFetchedAt.same g.LastFetchedAt → f.ID ≤ g.ID)) := by
  have h := (GetNextFeedToFetch_selects_stalest (demoLib (fun _ => .ok (demoDoc [])))).2
    ⟨⟨[demoFeed 1 "http://a.example" ⟨0, false⟩,
        demoFeed 2 "http://b.example" ⟨400, true⟩], [], 1000⟩, ()⟩
    (demoFeed 1 "http://a.example" ⟨0, false⟩) (demoFeed 2 "http://b.example" ⟨400, true⟩)
    (Or.inl rfl) rfl rfl (by decide) (by decide)
  obtain ⟨f, _, hmem, hmin⟩ :=
    (GetNextFeedToFetch_selects_stalest (demoLib (fun _ => .ok (demoDoc [])))).1
      ⟨[demoFeed 3 "http://c.example" ⟨400, true⟩,
        demoFeed 2 "http://b.example" ⟨400, true⟩], [], 1000⟩ (by simp)
  exact ⟨h.1, h.2.2.1, f, hmem, hmin⟩

/-- C7, as stated, fails: a cycle returns an error value and nothing else.  Two
cycles over the same two-item document, one against a store that knows one of
the URLs (one insert, one duplicate) and one against a store that knows none
(two inserts), return the same value and make the same calls, so no report of
the counts can be read off what the cycle returns. -/
theorem scrapeFeeds_returns_no_report :
    reportOf (ingestLoop twoItemEnv (demoFeed 7 "http://a.example" ⟨0, false⟩)
        [demoItem "http://p/1" demoDate, demoItem "http://p/2" demoDate]
        (worldOneKnown.db.MarkFeedFetched 7).2).errs = ⟨1, 1, 0⟩ ∧
    reportOf (ingestLoop twoItemEnv (demoFeed 7 "http://a.example" ⟨0, false⟩)
        [demoItem "http://p/1" demoDate, demoItem "http://p/2" demoDate]
        (worldNoneKnown.db.MarkFeedFetched 7).2).errs = ⟨2, 0, 0⟩ ∧
    (scrapeFeeds twoItemEnv worldOneKnown).err = none ∧
    (scrapeFeeds twoItemEnv worldNoneKnown).err = none ∧
    (scrapeFeeds twoItemEnv worldOneKnown).trace =
      (scrapeFeeds twoItemEnv worldNoneKnown).trace ∧
    ¬ ∃ report : Option Err × List Event → Report,
      report ((scrapeFeeds twoItemEnv worldOneKnown).err,
        (scrapeFeeds twoItemEnv worldOneKnown).trace) = ⟨1, 1, 0⟩ ∧
      report ((scrapeFeeds twoItemEnv worldNoneKnown).err,
        (scrapeFeeds twoItemEnv worldNoneKnown).trace) = ⟨2, 0, 0⟩ := by
  have htrace : (scrapeFeeds twoItemEnv worldOneKnown).trace =
      (scrapeFeeds twoItemEnv worldNoneKnown).trace := by decide
  have herr1 : (scrapeFeeds twoItemEnv worldOneKnown).err = none := by decide
  have herr2 : (scrapeFeeds twoItemEnv worldNoneKnown).err = none := by decide
  refine ⟨by decide, by decide, herr1, herr2, htrace, ?_⟩
  rintro ⟨report, h1, h2⟩
  rw [htrace, herr1] at h1
  rw [herr2, h1] at h2
  exact absurd h2 (by decide)

/-- C7, amended: the results of `savePostToDB` over a batch, counted by the
branch the loop takes on each (saved, duplicate URL skipped, failure logged),
add up to the number of items, and the warnings of the loop are as many as the
failures; against the model store a batch of two items with parseable dates,
exactly one of whose URLs is stored, counts one saved, one duplicate and no
failure. -/
theorem ingestLoop_outcome_counts {σ : Type} (E : Env σ ν) (L : Lib ν) :
    (∀ (f : database.Feed) (items : List rss.Item) (db : σ),
      (reportOf (ingestLoop E f items db).errs).inserted +
        (reportOf (ingestLoop E f items db).errs).duplicate +
        (reportOf (ingestLoop E f items db).errs).failed = items.length ∧
      (logLines (ingestLoop E f items db).trace).length =
        (reportOf (ingestLoop E f items db).errs).failed) ∧
    (∀ (db : MemDB) (f : database.Feed) (a b : rss.Item) (ta tb : Timestamp),
      L.timeParseRFC1123 a.PubDate = .ok ta → L.timeParseRFC1123 b.PubDate = .ok tb →
      ((a.Link ∈ db.urls ∧ b.Link ∉ db.urls) ∨ (a.Link ∉ db.urls ∧ b.Link ∈ db.urls)) →
      reportOf (ingestLoop (memEnv L) f [a, b] db).errs = ⟨1, 1, 0⟩) := by
  constructor
  · intro f items db
    induction items generalizing db with
    | nil => simp [ingestLoop, reportOf, logLines]
    | cons item rest ih =>
      obtain ⟨ih1, ih2⟩ := ih (savePostToDB E db item f).2.1
      simp only [ingestLoop, logLines_append, savePostToDB_logLines, List.length_append,
        List.length_cons, List.nil_append]
      cases hr : (savePostToDB E db item f).1 with
      | none =>
        simp only [reportOf, logLines, List.length_nil]
        constructor <;> omega
      | some e =>
        cases hd : isDuplicateURLError (some e) with
        | true =>
          simp only [reportOf, hd, if_true, logLines, List.length_nil]
          constructor <;> omega
        | false =>
          simp only [reportOf, hd, Bool.false_eq_true, if_false, logLines, List.length_cons,
            List.length_nil]
          constructor <;> omega
  · intro db f a b ta tb ha hb hcase
    rcases hcase with ⟨hain, hbout⟩ | ⟨haout, hbin⟩
    · have h1 := savePostToDB_memEnv_known L db a f ta ha hain
      have h2 := savePostToDB_memEnv_new L db b f tb hb hbout
      simp [ingestLoop, h1, h2, reportOf, isDuplicateURLError_text]
    · have h1 := savePostToDB_memEnv_new L db a f ta ha haout
      obtain ⟨_, _, _, s4, _⟩ := savePostToDB_memEnv L db a f
      have h2 := savePostToDB_memEnv_known L (savePostToDB (memEnv L) db a f).2.1 b f tb hb
        (s4 _ hbin)
      simp [ingestLoop, h1, h2, reportOf, isDuplicateURLError_text]

/-- C7 amended, at the two-item batch against the store that knows the second
URL. -/
theorem ingestLoop_outcome_counts_witness :
    reportOf (ingestLoop twoItemEnv (demoFeed 7 "http://a.example" ⟨0, false⟩)
        [demoItem "http://p/1" demoDate, demoItem "http://p/2" demoDate]
        worldOneKnown.db).errs = ⟨1, 1, 0⟩ :=
  (ingestLoop_outcome_counts twoItemEnv
      (demoLib (fun _ =>
        .ok (demoDoc [demoItem "http://p/1" demoDate, demoItem "http://p/2" demoDate])))).2
    worldOneKnown.db (demoFeed 7 "http://a.example" ⟨0, false⟩)
    (demoItem "http://p/1" demoDate) (demoItem "http://p/2" demoDate) 1136239445 1136239445
    rfl rfl (Or.inr ⟨by decide, by decide⟩)

end ModelStore

/-! ## Startup of the scheduler -/

section Startup

variable {σ ν : Type}

/-- C11, as stated, fails: the strings `-1.5h` and `0` are valid duration
strings, and on either `HandleAgg` parses the interval, prints it and panics in
`time.NewTicker` without running a cycle; so not every valid duration string
leads to the first cycle. -/
theorem HandleAgg_valid_interval_without_cycle :
    signedEnv.ParseDuration "-1.5h" = .ok (-5400000000000) ∧
    HandleAgg signedEnv 3 worldNoneKnown ⟨"agg", ["-1.5h"]⟩ =
      .panicked "non-positive interval for NewTicker" worldNoneKnown
        [Event.Println "Collecting feeds every -1h30m0s"] ∧
    signedEnv.ParseDuration "0" = .ok 0 ∧
    HandleAgg signedEnv 3 worldNoneKnown ⟨"agg", ["0"]⟩ =
      .panicked "non-positive interval for NewTicker" worldNoneKnown
        [Event.Println "Collecting feeds every 0s"] ∧
    cyclesRun (HandleAgg signedEnv 3 worldNoneKnown ⟨"agg", ["-1.5h"]⟩).trace = 0 ∧
    cyclesRun (HandleAgg signedEnv 3 worldNoneKnown ⟨"agg", ["0"]⟩).trace = 0 ∧
    ¬ ∀ (arg : String) (d : Duration), signedEnv.ParseDuration arg = .ok d →
      ∃ more, (HandleAgg signedEnv 3 worldNoneKnown ⟨"agg", [arg]⟩).trace =
        [Event.Println ("Collecting feeds every " ++ signedEnv.durationString d)] ++
          (scrapeFeeds signedEnv worldNoneKnown).trace ++ more := by
  refine ⟨rfl, rfl, rfl, rfl, by decide, by decide, ?_⟩
  intro h
  obtain ⟨more, hmore⟩ := h "0" 0 rfl
  have hlen := congrArg List.length hmore
  have h1 : (HandleAgg signedEnv 3 worldNoneKnown ⟨"agg", ["0"]⟩).trace.length = 1 := by decide
  have h2 : (scrapeFeeds signedEnv worldNoneKnown).trace.length = 4 := by decide
  rw [h1] at hlen
  simp only [List.length_append, List.length_cons, List.length_nil, h2] at hlen
  omega

/-- C11, amended: when the interval argument does not parse, `HandleAgg`
returns the parse error, in the world it was started in and with an empty
trace, so without any selection, stamp, fetch or insert; when it parses to a
positive duration, such as `1m30s`, `HandleAgg` prints that duration and runs
the first cycle. -/
theorem HandleAgg_interval_startup (E : Env σ ν) (w : World σ ν) (cmd : Command)
    (arg : String) (rest : List String) (hargs : cmd.Args = arg :: rest) :
    (∀ e, E.ParseDuration arg = .error e →
      ∀ fuel, HandleAgg E fuel w cmd = .returned e w [] ∧
        (HandleAgg E fuel w cmd).trace = []) ∧
    (∀ d, E.ParseDuration arg = .ok d → 0 < d →
      ∀ fuel, 0 < fuel → ∃ more, (HandleAgg E fuel w cmd).trace =
        [Event.Println ("Collecting feeds every " ++ E.durationString d)] ++
          (scrapeFeeds E w).trace ++ more) := by
  constructor
  · intro e he fuel
    have h : HandleAgg E fuel w cmd = .returned e w [] := by
      simp [HandleAgg, hargs, he]
    exact ⟨h, by rw [h]; rfl⟩
  · intro d hd hpos fuel hfuel
    rw [HandleAgg_of_positive E fuel w cmd arg rest d hargs hd hpos]
    exact aggLoop_first_cycle E fuel w _ hfuel

/-- C11 amended, at the arguments `soon`, which does not parse, and `1m30s`. -/
theorem HandleAgg_interval_startup_witness :
    HandleAgg signedEnv 3 worldNoneKnown ⟨"agg", ["soon"]⟩ =
      .returned "time: invalid duration" worldNoneKnown [] ∧
    (∃ more, (HandleAgg signedEnv 3 worldNoneKnown ⟨"agg", ["1m30s"]⟩).trace =
      [Event.Println "Collecting feeds every 1m30s"] ++
        [Event.GetNextFeedToFetch, Event.MarkFeedFetched 7,
          Event.FetchFeed Context.Background "http://a.example",
          Event.clientDo ⟨Context.Background, "GET", "http://a.example"⟩] ++ more) :=
  ⟨((HandleAgg_interval_startup signedEnv worldNoneKnown ⟨"agg", ["soon"]⟩ "soon" [] rfl).1
      "time: invalid duration" rfl 3).1,
   (HandleAgg_interval_startup signedEnv worldNoneKnown ⟨"agg", ["1m30s"]⟩ "1m30s" [] rfl).2
      90000000000 rfl (by decide) 3 (by decide)⟩

/-- C12, as stated, fails: the context a cycle passes to `FetchFeed` is
`context.Background()`, which has no deadline; and a cycle whose feed URL no
request can be built for reaches the fetch step and never calls
`(*http.Client).Do`. -/
theorem scrapeFeeds_fetch_without_deadline :
    fetchCalls (scrapeFeeds signedEnv worldNoneKnown).trace =
      [(Context.Background, "http://a.example")] ∧
    Context.Background.deadline = none ∧
    (¬ ∀ call ∈ fetchCalls (scrapeFeeds signedEnv worldNoneKnown).trace,
      ∃ t, call.1.deadline = some t) ∧
    fetchCalls (scrapeFeeds signedEnv worldBadURL).trace = [(Context.Background, ":")] ∧
    clientDoCalls (scrapeFeeds signedEnv worldBadURL).trace = [] := by
  refine ⟨by decide, rfl, ?_, by decide, by decide⟩
  intro h
  obtain ⟨t, ht⟩ := h (Context.Background, "http://a.example") (by decide)
  cases ht

/-- C12, amended: a cycle calls `FetchFeed` at most once, always with
`context.Background()`, which has no deadline; a cycle in which selection and
stamping succeeded calls it exactly once, on the selected feed's URL.  The
cycle calls `(*http.Client).Do` at most once, and in such a cycle exactly once
when the request can be built, with the `GET` request built from that context
and URL, and not at all when it cannot. -/
theorem scrapeFeeds_fetch_step (E : Env σ ν) (w : World σ ν) :
    (fetchCalls (scrapeFeeds E w).trace).length ≤ 1 ∧
    (∀ call ∈ fetchCalls (scrapeFeeds E w).trace,
      call.1 = Context.Background ∧ call.1.deadline = none) ∧
    (clientDoCalls (scrapeFeeds E w).trace).length ≤ 1 ∧
    (∀ f db1 db2, E.GetNextFeedToFetch w.db = (.ok f, db1) →
      E.MarkFeedFetched db1 f.ID = (none, db2) →
      fetchCalls (scrapeFeeds E w).trace = [(Context.Background, f.Url)] ∧
      clientDoCalls (scrapeFeeds E w).trace = expectedDoCalls E f.Url ∧
      (∀ req, E.NewRequestWithContext Context.Background "GET" f.Url = .ok req →
        clientDoCalls (scrapeFeeds E w).trace = [req])) := by
  have hlen : ∀ url, (expectedDoCalls E url).length ≤ 1 := by
    intro url
    unfold expectedDoCalls
    cases E.NewRequestWithContext Context.Background "GET" url <;> simp
  have hreached : ∀ f db1 db2, E.GetNextFeedToFetch w.db = (.ok f, db1) →
      E.MarkFeedFetched db1 f.ID = (none, db2) →
      fetchCalls (scrapeFeeds E w).trace = [(Context.Background, f.Url)] ∧
      clientDoCalls (scrapeFeeds E w).trace = expectedDoCalls E f.Url := by
    intro f db1 db2 hsel hstamp
    obtain ⟨q1, q2⟩ := FetchFeed_requests E f.Url w.net
    rcases hf : FetchFeed E Context.Background f.Url w.net with ⟨r, net1, tr⟩
    rw [hf] at q1 q2
    simp only at q1 q2
    cases r with
    | error e =>
      rw [scrapeFeeds_of_fetch_error E w f db1 db2 e net1 tr hsel hstamp hf]
      simp only [fetchCalls_append, clientDoCalls_append, q1, q2]
      exact ⟨rfl, rfl⟩
    | ok doc =>
      rw [scrapeFeeds_of_fetched E w f db1 db2 doc net1 tr hsel hstamp hf]
      obtain ⟨l1, l2⟩ := ingestLoop_no_fetch E f doc.Channel.Items db2
      simp only [fetchCalls_append, clientDoCalls_append, q1, q2, l1, l2, List.append_nil]
      exact ⟨rfl, rfl⟩
  have hall : (fetchCalls (scrapeFeeds E w).trace = [] ∧
        clientDoCalls (scrapeFeeds E w).trace = []) ∨
      ∃ url, fetchCalls (scrapeFeeds E w).trace = [(Context.Background, url)] ∧
        clientDoCalls (scrapeFeeds E w).trace = expectedDoCalls E url := by
    rcases hsel : E.GetNextFeedToFetch w.db with ⟨r, db1⟩
    cases r with
    | error e =>
      left
      simp [scrapeFeeds, hsel, fetchCalls, clientDoCalls]
    | ok f =>
      rcases hstamp : E.MarkFeedFetched db1 f.ID with ⟨r2, db2⟩
      cases r2 with
      | some e =>
        left
        simp [scrapeFeeds, hsel, hstamp, fetchCalls, clientDoCalls]
      | none => exact Or.inr ⟨f.Url, hreached f db1 db2 hsel hstamp⟩
  refine ⟨?_, ?_, ?_, ?_⟩
  · rcases hall with ⟨h, _⟩ | ⟨url, h, _⟩ <;> rw [h] <;> simp
  · intro call hcall
    rcases hall with ⟨h, _⟩ | ⟨url, h, _⟩
    · rw [h] at hcall; cases hcall
    · rw [h] at hcall
      simp only [List.mem_singleton] at hcall
      subst hcall
      exact ⟨rfl, rfl⟩
  · rcases hall with ⟨_, h⟩ | ⟨url, _, h⟩ <;> rw [h]
    · simp
    · exact hlen url
  · intro f db1 db2 hsel hstamp
    obtain ⟨h1, h2⟩ := hreached f db1 db2 hsel hstamp
    refine ⟨h1, h2, ?_⟩
    intro req hreq
    rw [h2]
    simp [expectedDoCalls, hreq]

/-- C12 amended, at a cycle of the model store on a feed that is served: one
call of `FetchFeed` with the background context and one call of
`(*http.Client).Do` with the `GET` request for the feed URL. -/
theorem scrapeFeeds_fetch_step_witness :
    fetchCalls (scrapeFeeds signedEnv worldNoneKnown).trace =
      [(Context.Background, "http://a.example")] ∧
    clientDoCalls (scrapeFeeds signedEnv worldNoneKnown).trace =
      [⟨Context.Background, "GET", "http://a.example"⟩] := by
  obtain ⟨h1, _, h3⟩ := (scrapeFeeds_fetch_step signedEnv worldNoneKnown).2.2.2
    (demoFeed 7 "http://a.example" ⟨0, false⟩) worldNoneKnown.db
    ⟨[demoFeed 7 "http://a.example" ⟨100, true⟩], [], 100⟩ rfl rfl
  exact ⟨h1, h3 ⟨Context.Background, "GET", "http://a.example"⟩ rfl⟩

end Startup

/-! ## Warnings of the ingest loop, arguments of the handler -/

section Outcomes

variable {σ ν : Type}

/-- C14: `HandleAgg` reads `cmd.Args[0]` unguarded.  On a non-empty argument
list the read is in bounds: the run is the run on the first argument alone,
whatever the command name and the other arguments, and it does not end in the
index panic.  On the empty argument list the run ends in the index panic, with
nothing done, and does not return an error.  `executeCommand` passes the
arguments after the command name unchecked, so the process arguments
`prog agg` reach that panic. -/
theorem HandleAgg_reads_first_argument (E : Env σ ν) (fuel : Nat) (w : World σ ν) :
    (∀ (cmd : Command) (arg : String) (rest : List String), cmd.Args = arg :: rest →
      HandleAgg E fuel w cmd = HandleAgg E fuel w ⟨"agg", [arg]⟩ ∧
      ∀ w2 tr, HandleAgg E fuel w cmd ≠
        .panicked "runtime error: index out of range [0] with length 0" w2 tr) ∧
    (∀ cmd : Command, cmd.Args = [] →
      HandleAgg E fuel w cmd =
        .panicked "runtime error: index out of range [0] with length 0" w [] ∧
      ∀ e w2 tr, HandleAgg E fuel w cmd ≠ .returned e w2 tr) ∧
    (∀ (others : String → Option (CommandHandler σ ν)) (prog : String),
      executeCommand E others fuel w [prog, "agg"] =
        .panicked "runtime error: index out of range [0] with length 0" w []) ∧
    (∀ (others : String → Option (CommandHandler σ ν)) (prog arg : String)
      (rest : List String),
      executeCommand E others fuel w (prog :: "agg" :: arg :: rest) =
        HandleAgg E fuel w ⟨"agg", [arg]⟩) := by
  have hfirst : ∀ (cmd : Command) (arg : String) (rest : List String),
      cmd.Args = arg :: rest → HandleAgg E fuel w cmd = HandleAgg E fuel w ⟨"agg", [arg]⟩ := by
    intro cmd arg rest hargs
    simp [HandleAgg, hargs]
  have hempty : ∀ cmd : Command, cmd.Args = [] →
      HandleAgg E fuel w cmd =
        .panicked "runtime error: index out of range [0] with length 0" w [] := by
    intro cmd hargs
    simp [HandleAgg, hargs]
  refine ⟨?_, ?_, ?_, ?_⟩
  · intro cmd arg rest hargs
    refine ⟨hfirst cmd arg rest hargs, ?_⟩
    intro w2 tr
    unfold HandleAgg
    rw [hargs]
    simp only
    cases hp : E.ParseDuration arg with
    | error e => simp
    | ok d =>
      simp only
      by_cases hd : d ≤ 0
      · simp only [hd, if_true]
        intro h
        injection h with h1 _ _
        exact absurd h1 (by decide)
      · simp only [hd, if_false]
        exact aggLoop_not_panicked E fuel w _ _ w2 tr
  · intro cmd hargs
    refine ⟨hempty cmd hargs, ?_⟩
    intro e w2 tr
    rw [hempty cmd hargs]
    simp
  · intro others prog
    simp [executeCommand, Execute, commandMap, HandleAgg]
  · intro others prog arg rest
    have h : executeCommand E others fuel w (prog :: "agg" :: arg :: rest) =
        HandleAgg E fuel w ⟨"agg", arg :: rest⟩ := by
      simp [executeCommand, Execute, commandMap]
    rw [h]
    exact hfirst _ arg rest rfl

/-- C14, at the process arguments `gator agg 1m30s now`, whose run is that on
`1m30s` alone, and `gator agg`, whose run ends in the index panic. -/
theorem HandleAgg_reads_first_argument_witness :
    HandleAgg signedEnv 2 worldNoneKnown ⟨"agg", ["1m30s", "now"]⟩ =
      HandleAgg signedEnv 2 worldNoneKnown ⟨"agg", ["1m30s"]⟩ ∧
    HandleAgg signedEnv 2 worldNoneKnown ⟨"agg", []⟩ =
      .panicked "runtime error: index out of range [0] with length 0" worldNoneKnown [] ∧
    executeCommand signedEnv (fun _ => none) 2 worldNoneKnown ["gator", "agg"] =
      .panicked "runtime error: index out of range [0] with length 0" worldNoneKnown [] :=
  ⟨((HandleAgg_reads_first_argument signedEnv 2 worldNoneKnown).1
      ⟨"agg", ["1m30s", "now"]⟩ "1m30s" ["now"] rfl).1,
   ((HandleAgg_reads_first_argument signedEnv 2 worldNoneKnown).2.1 ⟨"agg", []⟩ rfl).1,
   (HandleAgg_reads_first_argument signedEnv 2 worldNoneKnown).2.2.1 (fun _ => none) "gator"⟩

end Outcomes

end BlogAggregator
